import Mathlib

/-!
# Caching reverse proxy (`main.go`): cache primitives and the populate flow

A shallow embedding of `src/main.go`.

* The Go map `map[string]Item` is an association list `List (String × Item)`;
  a well-formed map (`KeysNodup`) stores every key at most once.  The
  operations do not require well-formedness, separate lemmas show that they
  preserve it.
* A `range` over a Go map visits the entries in an unspecified order, so every
  function that ranges over the map receives the visiting order as an argument
  (a permutation of the entries).
* Methods with a pointer receiver pass the cache explicitly and return the
  cache they leave behind.
* `time.Now()` is an argument (the clock reading).  A `time.Time` is the number
  of nanoseconds since the Unix epoch.
* The functional model is sequential: every call runs to completion before the
  next one starts.  How the lock of `sync.RWMutex` is held at each access to a
  shared field is recorded separately (`Access`, `HandlerProxyAccesses`), and
  `raceMisses` runs the miss branches of two requests that both saw a miss.
* Go `int` is the 64-bit two's-complement integer: the size counter of a cache
  is an `Int` in that range (`IsGoInt`) and the addition of main.go:175 wraps
  around (`wrapInt`).
-/

namespace Proxy

/-- One element of a Go `[]byte`. -/
abbrev Byte := Fin 256

/-- A `time.Time`: nanoseconds since the Unix epoch. -/
abbrev Time := Int

/-- The Go method `Time.UnixMilli`: milliseconds since the Unix epoch
(`unixSec*1e3 + nsec/1e6` with `0 ≤ nsec < 1e9`, the floor of `t / 1e6`). -/
def UnixMilli (t : Time) : Int := t / 1000000

/-- The least value of a Go `int` (64-bit platform). -/
def minInt : Int := -9223372036854775808

/-- The greatest value of a Go `int` (64-bit platform). -/
def maxInt : Int := 9223372036854775807

/-- The integer `x` is a value of the Go type `int`. -/
def IsGoInt (x : Int) : Prop := minInt ≤ x ∧ x ≤ maxInt

instance (x : Int) : Decidable (IsGoInt x) := by
  unfold IsGoInt; infer_instance

/-- The Go `int` that an arithmetic result `x` is stored as: `x` modulo `2^64`,
taken in the range from `minInt` to `maxInt` (two's-complement wrap-around). -/
def wrapInt (x : Int) : Int :=
  (x + 9223372036854775808) % 18446744073709551616 - 9223372036854775808

/-- A Go `error` value: `none` is `nil`, `some msg` an error with that message. -/
abbrev GoError := Option String

/-- The struct `Config` (main.go:19-23). -/
structure Config where
  Ip : String
  Address : String
  CacheSize : Int
  deriving DecidableEq, Repr

/-- The struct `Item` (main.go:33-36).  A nil slice and an empty slice are both
the empty list. -/
structure Item where
  Value : List Byte
  Created : Time
  deriving DecidableEq, Repr

/-- The struct `Cache` (main.go:25-31), without the embedded lock.  The field
`cacheSize` has the Go type `int`: its value lies in the 64-bit range. -/
structure Cache where
  defaultExpiration : Int
  cleanupInterval : Int
  items : List (String × Item)
  cacheSize : Int
  cacheSizeInt : IsGoInt cacheSize
  deriving DecidableEq, Repr

/-- The map index expression `m[k]` with the comma-ok form. -/
def mapLookup : List (String × Item) → String → Option Item
  | [], _ => none
  | (k', v) :: m, k => if k' = k then some v else mapLookup m k

/-- The builtin `delete(m, k)`. -/
def mapDelete (m : List (String × Item)) (k : String) : List (String × Item) :=
  m.filter (fun e => decide (e.1 ≠ k))

/-- The map assignment `m[k] = v`. -/
def mapStore (m : List (String × Item)) (k : String) (v : Item) : List (String × Item) :=
  (k, v) :: mapDelete m k

/-- Well-formed map: no key is stored twice. -/
def KeysNodup (m : List (String × Item)) : Prop := (m.map Prod.fst).Nodup

instance (m : List (String × Item)) : Decidable (KeysNodup m) := by
  unfold KeysNodup; infer_instance

/-- The constructor `New` (main.go:38-50): `cacheSize` keeps its zero value. -/
def New (defaultExpiration cleanupInterval : Int) : Cache :=
  { items := []
    defaultExpiration := defaultExpiration
    cleanupInterval := cleanupInterval
    cacheSize := 0
    cacheSizeInt := by decide }

/-- The package variable `cache = New(0, 0)` (main.go:17) at process start. -/
def cache : Cache := New 0 0

/-- The method `Cache.Set` (main.go:52-61); `now` is the reading of `time.Now()`. -/
def Cache.Set (c : Cache) (key : String) (value : List Byte) (now : Time) : Cache :=
  { c with items := mapStore c.items key { Value := value, Created := now } }

/-- The method `Cache.Get` (main.go:63-75): the cache it leaves behind and the
triple it returns; `now` is the reading of `time.Now()` on the miss branch. -/
def Cache.Get (c : Cache) (key : String) (now : Time) : Cache × (List Byte × Time × Bool) :=
  match mapLookup c.items key with
  | none => (c, ([], now, false))
  | some item => (c, (item.Value, item.Created, true))

/-- The method `Cache.Delete` (main.go:77-89). -/
def Cache.Delete (c : Cache) (key : String) : Cache × GoError :=
  match mapLookup c.items key with
  | none => (c, some "key not found")
  | some _ => ({ c with items := mapDelete c.items key }, none)

/-- The local variables `i`, `min`, `key` of `delOldCache`. -/
structure Scan where
  i : Int
  min : Int
  key : String
  deriving DecidableEq, Repr

/-- One iteration of the loop body of `delOldCache` (main.go:99-112). -/
def scanStep (s : Scan) (e : String × Item) : Scan :=
  let s1 : Scan :=
    if s.i = 0 then { s with min := UnixMilli e.2.Created, key := e.1 } else s
  let s2 : Scan :=
    if UnixMilli e.2.Created ≤ s1.min then
      { s1 with min := UnixMilli e.2.Created, key := e.1 }
    else s1
  { s2 with i := s2.i + 1 }

/-- The whole loop of `delOldCache` over the entries in visiting order. -/
def scan (order : List (String × Item)) : Scan :=
  order.foldl scanStep { i := 0, min := 0, key := "" }

/-- The function `delOldCache` (main.go:91-119) on the cache `c`; `order` is the
order in which the `range` visits `c.items`.  The error of `Delete` is dropped,
the function itself always returns `nil`. -/
def delOldCache (c : Cache) (order : List (String × Item)) : Cache × GoError :=
  let s := scan order
  if c.items.length > 1 then ((c.Delete s.key).1, none) else (c, none)

/-- What `config.toml` holds when `readConfig` runs. -/
inductive ConfigFile where
  | openError
  | decodeError
  | decoded (config : Config)
  deriving DecidableEq, Repr

/-- How a call ends: with a value, or in a Go panic. -/
inductive Ret (α : Type) where
  | val (a : α)
  | panic
  deriving DecidableEq, Repr

/-- The function `readConfig` (main.go:121-137): panics when the file does not
open, returns the error "config not found" when it does not decode. -/
def readConfig : ConfigFile → Ret (Option Config × GoError)
  | .openError => .panic
  | .decodeError => .val (none, some "config not found")
  | .decoded config => .val (some config, none)

/-- What the outbound request of the miss branch yields (main.go:149-167):
`requestError`: `http.NewRequest` fails and `req` is nil; `noResponse`:
`client.Do` fails and `resp` is nil; `readError`: `ioutil.ReadAll` fails;
`ok body`: the body was read in full. -/
inductive FetchResult where
  | requestError
  | noResponse
  | readError
  | ok (body : List Byte)
  deriving DecidableEq, Repr

/-- Observable actions of a request besides the response. -/
inductive Event where
  | fetch (url host refer : String) (result : FetchResult)
  | print (newSize cacheSize : Int)
  | evict
  deriving DecidableEq, Repr

/-- How `HandlerProxy` ends: it writes a response, panics, or `log.Fatal`
terminates the process. -/
inductive Exit where
  | responded (status : Nat) (body : List Byte)
  | panicked
  | fatal
  deriving DecidableEq, Repr

/-- The environment of one request: the configuration file, the result of the
outbound request, the clock readings and the visiting order of the eviction
scan. -/
structure Env where
  configFile : ConfigFile
  fetch : FetchResult
  nowGet1 : Time
  nowSet : Time
  order : List (String × Item)
  nowGet2 : Time
  deriving DecidableEq, Repr

/-- The result of one request: the cache left behind, how the handler ended and
what it did on the way. -/
structure HandlerResult where
  cache : Cache
  exit : Exit
  trace : List Event
  deriving DecidableEq, Repr

/-- The function `binary.Size` at a `[]byte`: the number of bytes. -/
def binarySize (body : List Byte) : Int := body.length

/-- Lines 169-177 of `HandlerProxy`: the size of the body in KB is added to the
counter with the wrap-around of Go's `int` addition, then the body is stored
under the configured host. -/
def accountAndStore (c : Cache) (config : Config) (body : List Byte) (now : Time) : Cache :=
  let pageSize := binarySize body
  let a := c.cacheSize
  let newSize := Int.tdiv pageSize 1024
  let c1 : Cache :=
    { c with
      cacheSize := wrapInt (a + newSize)
      cacheSizeInt := by unfold IsGoInt wrapInt minInt maxInt; omega }
  c1.Set config.Address body now

/-- Lines 179-188 of `HandlerProxy`: the print and the budget check. -/
def checkBudget (c : Cache) (config : Config) (newSize : Int)
    (order : List (String × Item)) : Cache × List Event :=
  if c.cacheSize ≥ config.CacheSize then
    ((delOldCache c order).1, [Event.print newSize c.cacheSize, Event.evict])
  else (c, [Event.print newSize c.cacheSize])

/-- The outbound request of the miss branch, as an event. -/
def fetchEvent (config : Config) (result : FetchResult) : Event :=
  Event.fetch ("https://" ++ config.Address ++ "/") config.Address config.Ip result

/-- The function `HandlerProxy` (main.go:139-198) on the cache `c`. -/
def HandlerProxy (c : Cache) (env : Env) : HandlerResult :=
  match readConfig env.configFile with
  | .panic => { cache := c, exit := .panicked, trace := [] }
  | .val (_, some _) => { cache := c, exit := .panicked, trace := [] }
  | .val (none, none) => { cache := c, exit := .panicked, trace := [] }
  | .val (some config, none) =>
    let r0 := c.Get config.Address env.nowGet1
    if r0.2.2.2 = false then
      match env.fetch with
      | .requestError => { cache := r0.1, exit := .panicked, trace := [] }
      | .noResponse =>
        { cache := r0.1, exit := .panicked, trace := [fetchEvent config .noResponse] }
      | .readError =>
        { cache := r0.1, exit := .fatal, trace := [fetchEvent config .readError] }
      | .ok body =>
        let c1 := accountAndStore r0.1 config body env.nowSet
        let r2 := checkBudget c1 config (Int.tdiv (binarySize body) 1024) env.order
        let r3 := r2.1.Get config.Address env.nowGet2
        { cache := r3.1
          exit := .responded 200 r3.2.1
          trace := fetchEvent config (.ok body) :: r2.2 }
    else
      let r3 := r0.1.Get config.Address env.nowGet2
      { cache := r3.1, exit := .responded 200 r3.2.1, trace := [] }

/-- One call made on the shared cache: a cache primitive, an eviction, or a
whole request. -/
inductive Step where
  | set (key : String) (value : List Byte) (now : Time)
  | get (key : String) (now : Time)
  | delete (key : String)
  | evict (order : List (String × Item))
  | request (env : Env)
  deriving DecidableEq, Repr

/-- The process: the shared cache, everything the requests did so far, and
whether the process is still running (`log.Fatal` ends it). -/
structure Sys where
  cache : Cache
  trace : List Event
  running : Bool
  deriving DecidableEq, Repr

/-- The process at start: the fresh cache of main.go:17. -/
def start : Sys := { cache := cache, trace := [], running := true }

/-- One call on a running process. -/
def Sys.step (s : Sys) : Step → Sys
  | .set key value now => { s with cache := s.cache.Set key value now }
  | .get key now => { s with cache := (s.cache.Get key now).1 }
  | .delete key => { s with cache := (s.cache.Delete key).1 }
  | .evict order => { s with cache := (delOldCache s.cache order).1 }
  | .request env =>
    let r := HandlerProxy s.cache env
    { cache := r.cache
      trace := s.trace ++ r.trace
      running := decide (r.exit ≠ Exit.fatal) }

/-- A sequence of calls; nothing runs after the process has exited. -/
def run (s : Sys) (steps : List Step) : Sys :=
  steps.foldl (fun s st => if s.running then s.step st else s) s

/-- The size of a value in KB, rounded up. -/
def ceilKB (n : Nat) : Int := ((n + 1023) / 1024 : Nat)

/-- The sum of `ceil(len(value)/1024)` over the stored entries. -/
def storedCeilKB (m : List (String × Item)) : Int :=
  (m.map (fun e => ceilKB e.2.Value.length)).sum

/-- The sum of `floor(len(value)/1024)` over the stored entries. -/
def storedFloorKB (m : List (String × Item)) : Int :=
  (m.map (fun e => ((e.2.Value.length / 1024 : Nat) : Int))).sum

/-- The KB a single event added to the budget: `floor(len(body)/1024)` for a
body that was fetched in full, nothing otherwise. -/
def Event.fetchedKB : Event → Int
  | .fetch _ _ _ (.ok body) => ((body.length / 1024 : Nat) : Int)
  | _ => 0

/-- The sum of `floor(len(body)/1024)` over all bodies fetched so far. -/
def fetchedKB (trace : List Event) : Int :=
  (trace.map Event.fetchedKB).sum

/-- The number of invocations of `delOldCache` recorded in a trace. -/
def evictCount (trace : List Event) : Nat :=
  trace.count Event.evict

/-- Consecutive calls of `Get` on the same key, one per clock reading: the
cache left behind and the results in call order. -/
def getRepeated (c : Cache) (key : String) : List Time → Cache × List (List Byte × Time × Bool)
  | [] => (c, [])
  | now :: rest =>
    let r := c.Get key now
    let rs := getRepeated r.1 key rest
    (rs.1, r.2 :: rs.2)

/-- The miss branch of `HandlerProxy` from the accounting on (main.go:169-195),
for a request that has evaluated `exists == false` and read `body` in full. -/
def missBranch (c : Cache) (config : Config) (body : List Byte) (env : Env) : HandlerResult :=
  let c1 := accountAndStore c config body env.nowSet
  let r2 := checkBudget c1 config (Int.tdiv (binarySize body) 1024) env.order
  let r3 := r2.1.Get config.Address env.nowGet2
  { cache := r3.1
    exit := .responded 200 r3.2.1
    trace := fetchEvent config (.ok body) :: r2.2 }

/-- Two requests for the same key that both evaluate `exists == false`
(main.go:145-147) on the cache `c` before either of them stores: their miss
branches then run one after the other, the one of `env1` first. -/
def raceMisses (c : Cache) (config : Config) (body1 body2 : List Byte) (env1 env2 : Env) :
    HandlerResult × HandlerResult :=
  let r1 := missBranch c config body1 env1
  (r1, missBranch r1.cache config body2 env2)

/-- How the lock of the cache is held at an access. -/
inductive Held where
  | unlocked
  | shared
  | exclusive
  deriving DecidableEq, Repr

/-- The fields of the cache that requests share. -/
inductive Field where
  | items
  | cacheSize
  deriving DecidableEq, Repr

/-- One access to a shared field: the line of main.go, the field, whether it
is a write, and how the lock is held at that line. -/
structure Access where
  line : Nat
  field : Field
  isWrite : Bool
  held : Held
  deriving DecidableEq, Repr

/-- The accesses of `Cache.Set`: the map assignment between `Lock` and the
deferred `Unlock` (main.go:53-60). -/
def SetAccesses : List Access :=
  [{ line := 57, field := .items, isWrite := true, held := .exclusive }]

/-- The accesses of `Cache.Get`: the map lookup between `RLock` and the deferred
`RUnlock` (main.go:64-68). -/
def GetAccesses : List Access :=
  [{ line := 68, field := .items, isWrite := false, held := .shared }]

/-- The accesses of `Cache.Delete`: the lookup and, for a stored key, the
`delete`, between `Lock` and the deferred `Unlock` (main.go:78-86). -/
def DeleteAccesses (c : Cache) (key : String) : List Access :=
  match mapLookup c.items key with
  | none => [{ line := 82, field := .items, isWrite := false, held := .exclusive }]
  | some _ =>
    [{ line := 82, field := .items, isWrite := false, held := .exclusive },
     { line := 86, field := .items, isWrite := true, held := .exclusive }]

/-- The accesses of `delOldCache`: the `range` over `cache.items` and
`len(cache.items)` run with no lock taken (main.go:99, 114), then `Delete`. -/
def delOldCacheAccesses (c : Cache) (order : List (String × Item)) : List Access :=
  [{ line := 99, field := .items, isWrite := false, held := .unlocked },
   { line := 114, field := .items, isWrite := false, held := .unlocked }] ++
  (if c.items.length > 1 then DeleteAccesses c (scan order).key else [])

/-- The accesses of `HandlerProxy`, along the control flow of `HandlerProxy`:
the counter is read and written at main.go:171-181 with no lock taken. -/
def HandlerProxyAccesses (c : Cache) (env : Env) : List Access :=
  match readConfig env.configFile with
  | .val (some config, none) =>
    if (c.Get config.Address env.nowGet1).2.2.2 = false then
      match env.fetch with
      | .ok body =>
        let c1 := accountAndStore c config body env.nowSet
        GetAccesses ++
        [{ line := 171, field := .cacheSize, isWrite := false, held := .unlocked },
         { line := 175, field := .cacheSize, isWrite := true, held := .unlocked }] ++
        SetAccesses ++
        [{ line := 179, field := .cacheSize, isWrite := false, held := .unlocked },
         { line := 181, field := .cacheSize, isWrite := false, held := .unlocked }] ++
        (if c1.cacheSize ≥ config.CacheSize then delOldCacheAccesses c1 env.order else []) ++
        GetAccesses
      | _ => GetAccesses
    else GetAccesses ++ GetAccesses
  | _ => []

/-- The requests `envs` are all handled with the configured host `host`: the
configuration decodes and its `Address` is `host`. -/
def SameHost (host : String) (envs : List Env) : Prop :=
  ∀ env ∈ envs, ∃ config, env.configFile = .decoded config ∧ config.Address = host

/-! ## Concrete inputs -/

/-- The request of Scenario A: budget 10 KB, the fetch returns a 500-byte body. -/
def scenarioAConfig : Config := { Ip := "10.0.0.1:8080", Address := "example.org", CacheSize := 10 }

/-- The environment of the first request of Scenario A. -/
def scenarioAEnv : Env :=
  { configFile := .decoded scenarioAConfig
    fetch := .ok (List.replicate 500 0)
    nowGet1 := 1000000
    nowSet := 2000000
    order := [("example.org", { Value := List.replicate 500 0, Created := 2000000 })]
    nowGet2 := 3000000 }

/-- Two entries created 100 microseconds apart, within the same millisecond. -/
def sameMilliCache : Cache :=
  { defaultExpiration := 0
    cleanupInterval := 0
    items := [("a.example", { Value := [1], Created := 1700000000000100000 }),
              ("b.example", { Value := [2], Created := 1700000000000200000 })]
    cacheSize := 0
    cacheSizeInt := by decide }

/-- Three entries created one second apart, the counter above any small budget. -/
def threeEntryCache : Cache :=
  { defaultExpiration := 0
    cleanupInterval := 0
    items := [("b.example", { Value := [2, 2], Created := 1700000001000000000 }),
              ("a.example", { Value := [1], Created := 1700000000000000000 }),
              ("c.example", { Value := [3, 3, 3], Created := 1700000002000000000 })]
    cacheSize := 11
    cacheSizeInt := by decide }

/-- A single entry with the counter far above any small budget. -/
def oneEntryCache : Cache :=
  { defaultExpiration := 0
    cleanupInterval := 0
    items := [("a.example", { Value := [1], Created := 1700000000000000000 })]
    cacheSize := 100
    cacheSizeInt := by decide }

/-- A request whose fetch returns a 3-byte body under a budget of 10 KB; the cache
it runs on, `threeEntryCache`, holds three other hosts and a counter of 11. -/
def overBudgetEnv : Env :=
  { configFile := .decoded { Ip := "10.0.0.1:8080", Address := "example.org", CacheSize := 10 }
    fetch := .ok ([7, 7, 7])
    nowGet1 := 1700000003000000000
    nowSet := 1700000003500000000
    order := [("b.example", { Value := [2, 2], Created := 1700000001000000000 }),
              ("example.org", { Value := [7, 7, 7], Created := 1700000003500000000 }),
              ("a.example", { Value := [1], Created := 1700000000000000000 }),
              ("c.example", { Value := [3, 3, 3], Created := 1700000002000000000 })]
    nowGet2 := 1700000003600000000 }

/-- The second request of Scenario A: same host; a fetch would fail. -/
def scenarioAEnv2 : Env :=
  { configFile := .decoded scenarioAConfig
    fetch := .noResponse
    nowGet1 := 4000000
    nowSet := 5000000
    order := []
    nowGet2 := 6000000 }

/-- Scenario B: two entries of 6 KB and 5 KB created one second apart, the
counter at 11. -/
def scenarioBCache : Cache :=
  { defaultExpiration := 0
    cleanupInterval := 0
    items := [("a.example", { Value := List.replicate 6144 1, Created := 1700000000000000000 }),
              ("b.example", { Value := List.replicate 5120 2, Created := 1700000001000000000 })]
    cacheSize := 11
    cacheSizeInt := by decide }

/-- Scenario B: a request for a further host under a budget of 10 KB; the
eviction scan visits the new entry first, then b, then a. -/
def scenarioBEnv : Env :=
  { configFile := .decoded { Ip := "10.0.0.1:8080", Address := "example.org", CacheSize := 10 }
    fetch := .ok [7, 7, 7]
    nowGet1 := 1700000003000000000
    nowSet := 1700000003500000000
    order := [("example.org", { Value := [7, 7, 7], Created := 1700000003500000000 }),
              ("b.example", { Value := List.replicate 5120 2, Created := 1700000001000000000 }),
              ("a.example", { Value := List.replicate 6144 1, Created := 1700000000000000000 })]
    nowGet2 := 1700000003600000000 }

/-- A request for a further host on `sameMilliCache`, one second later, under a
budget of 0; the eviction scan visits a, then b, then the new entry. -/
def sameMilliEnv : Env :=
  { configFile := .decoded { Ip := "10.0.0.1:8080", Address := "example.org", CacheSize := 0 }
    fetch := .ok [7, 7, 7]
    nowGet1 := 1700000001000000000
    nowSet := 1700000001000100000
    order := [("a.example", { Value := [1], Created := 1700000000000100000 }),
              ("b.example", { Value := [2], Created := 1700000000000200000 }),
              ("example.org", { Value := [7, 7, 7], Created := 1700000001000100000 })]
    nowGet2 := 1700000001000200000 }

/-- A request for a further host on `scenarioBCache` whose clock reading at
`Set` lies before the creation time of both stored entries. -/
def clockBackEnv : Env :=
  { configFile := .decoded { Ip := "10.0.0.1:8080", Address := "example.org", CacheSize := 10 }
    fetch := .ok [7, 7, 7]
    nowGet1 := 1699999999000000000
    nowSet := 1699999999500000000
    order := [("example.org", { Value := [7, 7, 7], Created := 1699999999500000000 }),
              ("b.example", { Value := List.replicate 5120 2, Created := 1700000001000000000 }),
              ("a.example", { Value := List.replicate 6144 1, Created := 1700000000000000000 })]
    nowGet2 := 1699999999600000000 }

/-- The first request on a fresh server under a budget of 0: the counter meets
the budget at once and `delOldCache` is invoked. -/
def zeroBudgetEnv : Env :=
  { configFile := .decoded { Ip := "10.0.0.1:8080", Address := "example.org", CacheSize := 0 }
    fetch := .ok [7, 7, 7]
    nowGet1 := 1000000
    nowSet := 2000000
    order := [("example.org", { Value := [7, 7, 7], Created := 2000000 })]
    nowGet2 := 3000000 }

/-- Scenario D, first request: looks the key up at 1 ms, fetches 1024 bytes,
stores at 5 ms. -/
def raceEnv1 : Env :=
  { configFile := .decoded scenarioAConfig
    fetch := .ok (List.replicate 1024 1)
    nowGet1 := 1000000
    nowSet := 5000000
    order := [("example.org", { Value := List.replicate 1024 1, Created := 5000000 })]
    nowGet2 := 6000000 }

/-- Scenario D, second request: looks the key up at 2 ms, fetches 2048 bytes,
stores at 7 ms. -/
def raceEnv2 : Env :=
  { configFile := .decoded scenarioAConfig
    fetch := .ok (List.replicate 2048 2)
    nowGet1 := 2000000
    nowSet := 7000000
    order := [("example.org", { Value := List.replicate 2048 2, Created := 7000000 })]
    nowGet2 := 8000000 }

/-- A first request whose outbound request gets no response: `client.Do` fails,
`resp` is nil and the handler panics at main.go:161. -/
def upstreamDownEnv : Env :=
  { configFile := .decoded scenarioAConfig
    fetch := .noResponse
    nowGet1 := 1000000
    nowSet := 2000000
    order := []
    nowGet2 := 3000000 }

/-- A later request for the same host whose fetch returns a 3-byte body. -/
def retryEnv : Env :=
  { configFile := .decoded scenarioAConfig
    fetch := .ok [7, 7, 7]
    nowGet1 := 4000000
    nowSet := 5000000
    order := [("example.org", { Value := [7, 7, 7], Created := 5000000 })]
    nowGet2 := 6000000 }

/-- A configuration for "example.org" with a budget of 2 KB. -/
def kb2Config : Config := { Ip := "10.0.0.1:8080", Address := "example.org", CacheSize := 2 }

/-- A request for "example.org" under a budget of 2 whose fetch returns a
2048-byte body. -/
def kb2Env : Env :=
  { configFile := .decoded kb2Config
    fetch := .ok (List.replicate 2048 0)
    nowGet1 := 1000000
    nowSet := 2000000
    order := [("example.org", { Value := List.replicate 2048 0, Created := 2000000 })]
    nowGet2 := 3000000 }

/-- A request for "example.org" under a budget of 10 whose fetch returns a
1024-byte body. -/
def kb1Env : Env :=
  { configFile := .decoded scenarioAConfig
    fetch := .ok (List.replicate 1024 0)
    nowGet1 := 1000000
    nowSet := 2000000
    order := [("example.org", { Value := List.replicate 1024 0, Created := 2000000 })]
    nowGet2 := 3000000 }

/-- An empty cache whose size counter holds the greatest `int`. -/
def fullCounterCache : Cache :=
  { defaultExpiration := 0
    cleanupInterval := 0
    items := []
    cacheSize := 9223372036854775807
    cacheSizeInt := by decide }

/-- A request for "example.org" whose fetch returns a body of the greatest
length a Go slice can have, `2^63 - 1` bytes. -/
def hugeEnv : Env :=
  { configFile := .decoded scenarioAConfig
    fetch := .ok (List.replicate 9223372036854775807 0)
    nowGet1 := 1000000
    nowSet := 2000000
    order := [("example.org",
      { Value := List.replicate 9223372036854775807 0, Created := 2000000 })]
    nowGet2 := 3000000 }

/-- The steps `request env, Delete(key)`, repeated `n` times. -/
def rounds (env : Env) (key : String) : Nat → List Step
  | 0 => []
  | n + 1 => Step.request env :: Step.delete key :: rounds env key n

/-! # Theorems -/

/-! ## The map primitives -/

theorem mapLookup_mapDelete_self (m : List (String × Item)) (k : String) :
    mapLookup (mapDelete m k) k = none := by
  induction m with
  | nil => rfl
  | cons e m ih =>
    by_cases h : e.1 = k
    · simpa [mapDelete, List.filter_cons, h] using ih
    · simpa [mapDelete, List.filter_cons, h, mapLookup] using ih

theorem mapDelete_cons_eq (a : String) (b : Item) (m : List (String × Item)) (k : String) :
    mapDelete ((a, b) :: m) k = if a = k then mapDelete m k else (a, b) :: mapDelete m k := by
  by_cases h : a = k <;> simp [mapDelete, List.filter_cons, h]

theorem mapLookup_mapDelete_of_ne (m : List (String × Item)) {k k' : String} (h : k' ≠ k) :
    mapLookup (mapDelete m k) k' = mapLookup m k' := by
  induction m with
  | nil => rfl
  | cons e m ih =>
    obtain ⟨a, b⟩ := e
    rw [mapDelete_cons_eq]
    by_cases h1 : a = k
    · subst h1
      rw [if_pos rfl, ih, mapLookup, if_neg (Ne.symm h)]
    · rw [if_neg h1, mapLookup, mapLookup, ih]

theorem mapLookup_mapStore_self (m : List (String × Item)) (k : String) (v : Item) :
    mapLookup (mapStore m k v) k = some v := by
  simp [mapStore, mapLookup]

theorem mapLookup_mapStore_of_ne (m : List (String × Item)) {k k' : String} (v : Item)
    (h : k' ≠ k) : mapLookup (mapStore m k v) k' = mapLookup m k' := by
  simp [mapStore, mapLookup, Ne.symm h, mapLookup_mapDelete_of_ne m h]

theorem mapLookup_eq_none_iff (m : List (String × Item)) (k : String) :
    mapLookup m k = none ↔ ∀ e ∈ m, e.1 ≠ k := by
  induction m with
  | nil => simp [mapLookup]
  | cons e m ih =>
    by_cases h : e.1 = k
    · simp [mapLookup, h]
    · simp [mapLookup, h, ih]

theorem mapDelete_of_lookup_none (m : List (String × Item)) (k : String)
    (h : mapLookup m k = none) : mapDelete m k = m := by
  rw [mapLookup_eq_none_iff] at h
  simpa [mapDelete, List.filter_eq_self] using h

theorem mem_of_mapLookup (m : List (String × Item)) (k : String) (v : Item)
    (h : mapLookup m k = some v) : (k, v) ∈ m := by
  induction m with
  | nil => simp [mapLookup] at h
  | cons e m ih =>
    by_cases h1 : e.1 = k
    · simp [mapLookup, h1] at h
      simp [← h, ← h1]
    · simp [mapLookup, h1] at h
      exact List.mem_cons_of_mem _ (ih h)

theorem mapLookup_of_mem (m : List (String × Item)) (hm : KeysNodup m) (k : String)
    (v : Item) (h : (k, v) ∈ m) : mapLookup m k = some v := by
  induction m with
  | nil => simp at h
  | cons e m ih =>
    simp only [KeysNodup, List.map_cons, List.nodup_cons] at hm
    rcases List.mem_cons.1 h with h1 | h1
    · simp [mapLookup, ← h1]
    · have h2 : e.1 ≠ k := by
        intro h3
        exact hm.1 (h3 ▸ List.mem_map_of_mem Prod.fst h1)
      simpa [mapLookup, h2] using ih hm.2 h1

theorem KeysNodup_mapDelete (m : List (String × Item)) (k : String) (hm : KeysNodup m) :
    KeysNodup (mapDelete m k) := by
  unfold KeysNodup mapDelete at *
  exact (List.filter_sublist m).map Prod.fst |>.nodup hm

theorem KeysNodup_mapStore (m : List (String × Item)) (k : String) (v : Item)
    (hm : KeysNodup m) : KeysNodup (mapStore m k v) := by
  have h := KeysNodup_mapDelete m k hm
  unfold KeysNodup mapStore mapDelete at *
  simp only [List.map_cons, List.nodup_cons]
  refine ⟨?_, h⟩
  simp [List.mem_map, List.mem_filter]

/-! ## The size counter -/

@[simp] theorem Get_fst (c : Cache) (key : String) (now : Time) : (c.Get key now).1 = c := by
  unfold Cache.Get; split <;> rfl

@[simp] theorem Set_cacheSize (c : Cache) (key : String) (value : List Byte) (now : Time) :
    (c.Set key value now).cacheSize = c.cacheSize := rfl

@[simp] theorem Delete_cacheSize (c : Cache) (key : String) :
    (c.Delete key).1.cacheSize = c.cacheSize := by
  unfold Cache.Delete; split <;> rfl

@[simp] theorem delOldCache_cacheSize (c : Cache) (order : List (String × Item)) :
    (delOldCache c order).1.cacheSize = c.cacheSize := by
  unfold delOldCache; split <;> simp

theorem tdiv_binarySize (body : List Byte) :
    Int.tdiv (binarySize body) 1024 = ((body.length / 1024 : Nat) : Int) := by
  unfold binarySize
  rfl

theorem wrapInt_isGoInt (x : Int) : IsGoInt (wrapInt x) := by
  unfold IsGoInt wrapInt minInt maxInt; omega

theorem wrapInt_of_isGoInt {x : Int} (h : IsGoInt x) : wrapInt x = x := by
  unfold IsGoInt minInt maxInt at h
  unfold wrapInt; omega

theorem wrapInt_wrapInt_add (a b : Int) : wrapInt (wrapInt a + b) = wrapInt (a + b) := by
  unfold wrapInt; omega

/-- A sum that stays in the range of `int` is stored as it is. -/
theorem wrapInt_add_of_le {a b : Int} (ha : IsGoInt a) (hb : 0 ≤ b) (h : a + b ≤ maxInt) :
    wrapInt (a + b) = a + b := by
  apply wrapInt_of_isGoInt
  unfold IsGoInt minInt maxInt at *
  omega

theorem wrapInt_cacheSize (c : Cache) : wrapInt c.cacheSize = c.cacheSize :=
  wrapInt_of_isGoInt c.cacheSizeInt

theorem accountAndStore_cacheSize (c : Cache) (config : Config) (body : List Byte)
    (now : Time) :
    (accountAndStore c config body now).cacheSize
      = wrapInt (c.cacheSize + ((body.length / 1024 : Nat) : Int)) := by
  simp [accountAndStore, tdiv_binarySize, Cache.Set]

@[simp] theorem checkBudget_cacheSize (c : Cache) (config : Config) (newSize : Int)
    (order : List (String × Item)) :
    (checkBudget c config newSize order).1.cacheSize = c.cacheSize := by
  unfold checkBudget; split <;> simp

@[simp] theorem checkBudget_fetchedKB (c : Cache) (config : Config) (newSize : Int)
    (order : List (String × Item)) :
    fetchedKB (checkBudget c config newSize order).2 = 0 := by
  unfold checkBudget; split <;> simp [fetchedKB, Event.fetchedKB]

theorem fetchedKB_append (t1 t2 : List Event) :
    fetchedKB (t1 ++ t2) = fetchedKB t1 + fetchedKB t2 := by
  simp [fetchedKB]

theorem eventKB_nonneg (e : Event) : 0 ≤ e.fetchedKB := by
  unfold Event.fetchedKB
  split
  · exact Int.natCast_nonneg _
  · exact le_refl 0

theorem fetchedKB_nonneg (trace : List Event) : 0 ≤ fetchedKB trace := by
  unfold fetchedKB
  apply List.sum_nonneg
  intro x hx
  obtain ⟨e, _, rfl⟩ := List.mem_map.1 hx
  exact eventKB_nonneg e

/-- A request stores the counter plus the KB it fetched, wrapped into `int`. -/
theorem HandlerProxy_cacheSize (c : Cache) (env : Env) :
    (HandlerProxy c env).cache.cacheSize
      = wrapInt (c.cacheSize + fetchedKB (HandlerProxy c env).trace) := by
  unfold HandlerProxy
  split
  · simp [fetchedKB, wrapInt_cacheSize]
  · simp [fetchedKB, wrapInt_cacheSize]
  · simp [fetchedKB, wrapInt_cacheSize]
  · dsimp only
    split
    · split
      · simp [fetchedKB, wrapInt_cacheSize]
      · simp [fetchedKB, fetchEvent, Event.fetchedKB, wrapInt_cacheSize]
      · simp [fetchedKB, fetchEvent, Event.fetchedKB, wrapInt_cacheSize]
      · have h := checkBudget_fetchedKB
        simp only [fetchedKB] at h
        simp [fetchedKB, fetchEvent, Event.fetchedKB, h, accountAndStore_cacheSize]
    · simp [fetchedKB, wrapInt_cacheSize]

theorem step_cacheSize (s : Sys) (st : Step)
    (h : s.cache.cacheSize = wrapInt (fetchedKB s.trace)) :
    (s.step st).cache.cacheSize = wrapInt (fetchedKB (s.step st).trace) := by
  cases st with
  | set key value now => simpa [Sys.step] using h
  | get key now => simpa [Sys.step] using h
  | delete key => simpa [Sys.step] using h
  | evict order => simpa [Sys.step] using h
  | request env =>
    simp only [Sys.step, fetchedKB_append, HandlerProxy_cacheSize, h, wrapInt_wrapInt_add]

theorem run_cacheSize (steps : List Step) (s : Sys)
    (h : s.cache.cacheSize = wrapInt (fetchedKB s.trace)) :
    (run s steps).cache.cacheSize = wrapInt (fetchedKB (run s steps).trace) := by
  induction steps generalizing s with
  | nil => exact h
  | cons st steps ih =>
    simp only [run, List.foldl_cons]
    by_cases hr : s.running
    · simp only [hr, if_true]
      exact ih _ (step_cacheSize s st h)
    · simp only [hr]
      exact ih _ h

/-- The formula of `ceilKB` is the ceiling of `n / 1024`. -/
theorem ceilKB_eq_ceil (n : Nat) : ceilKB n = ⌈(n : ℚ) / 1024⌉ := by
  symm
  rw [Int.ceil_eq_iff]
  unfold ceilKB
  obtain ⟨q, hq⟩ : ∃ q, q = (n + 1023) / 1024 := ⟨_, rfl⟩
  rw [← hq]
  have h1 : q * 1024 ≤ n + 1023 := by omega
  have h2 : n + 1023 < (q + 1) * 1024 := by omega
  have h1' : (q : ℚ) * 1024 ≤ n + 1023 := by exact_mod_cast h1
  have h2' : (n : ℚ) + 1 ≤ (q : ℚ) * 1024 + 1 := by
    have : n + 1 ≤ q * 1024 + 1 := by omega
    exact_mod_cast this
  constructor
  · rw [lt_div_iff₀ (by norm_num)]
    push_cast
    linarith
  · rw [div_le_iff₀ (by norm_num)]
    push_cast
    linarith

/-! ## The eviction scan -/

theorem UnixMilli_mono {a b : Time} (h : a ≤ b) : UnixMilli a ≤ UnixMilli b :=
  Int.ediv_le_ediv (by decide) h

theorem lt_of_UnixMilli_lt {a b : Time} (h : UnixMilli a < UnixMilli b) : a < b := by
  by_contra hn
  exact absurd (UnixMilli_mono (not_lt.1 hn)) (not_le.2 h)

theorem scanStep_i (s : Scan) (e : String × Item) : (scanStep s e).i = s.i + 1 := by
  unfold scanStep
  dsimp only
  split <;> split <;> rfl

theorem scanStep_spec (l : List (String × Item)) (s : Scan) (e : String × Item)
    (hi : s.i = l.length)
    (hl : l ≠ [] → ∃ x ∈ l, s.key = x.1 ∧ s.min = UnixMilli x.2.Created ∧
      ∀ y ∈ l, s.min ≤ UnixMilli y.2.Created) :
    (scanStep s e).i = (l ++ [e]).length ∧
    ∃ x ∈ l ++ [e], (scanStep s e).key = x.1 ∧ (scanStep s e).min = UnixMilli x.2.Created ∧
      ∀ y ∈ l ++ [e], (scanStep s e).min ≤ UnixMilli y.2.Created := by
  by_cases hnil : l = []
  · subst hnil
    have h0 : s.i = 0 := by simpa using hi
    refine ⟨by simp [scanStep_i, h0], e, by simp, ?_, ?_, ?_⟩ <;> simp [scanStep, h0]
  · obtain ⟨x, hx, hkey, hmin, hall⟩ := hl hnil
    have h0 : s.i ≠ 0 := by
      rw [hi]
      exact_mod_cast (List.length_pos.2 hnil).ne'
    by_cases hle : UnixMilli e.2.Created ≤ s.min
    · refine ⟨by simp [scanStep_i, hi], e, by simp, ?_, ?_, ?_⟩
      · simp [scanStep, h0, hle]
      · simp [scanStep, h0, hle]
      · intro y hy
        have hm : (scanStep s e).min = UnixMilli e.2.Created := by simp [scanStep, h0, hle]
        rw [hm]
        rcases List.mem_append.1 hy with hy | hy
        · exact le_trans hle (hall y hy)
        · simp at hy; subst hy; exact le_refl _
    · have hk : (scanStep s e).key = s.key := by simp [scanStep, h0, hle]
      have hm : (scanStep s e).min = s.min := by simp [scanStep, h0, hle]
      refine ⟨by simp [scanStep_i, hi], x, List.mem_append_left _ hx, ?_, ?_, ?_⟩
      · rw [hk, hkey]
      · rw [hm, hmin]
      · intro y hy
        rw [hm]
        rcases List.mem_append.1 hy with hy | hy
        · exact hall y hy
        · simp at hy; subst hy; exact le_of_lt (not_le.1 hle)

theorem foldl_scanStep_spec (rest l : List (String × Item)) (s : Scan)
    (hi : s.i = l.length)
    (hl : l ≠ [] → ∃ x ∈ l, s.key = x.1 ∧ s.min = UnixMilli x.2.Created ∧
      ∀ y ∈ l, s.min ≤ UnixMilli y.2.Created) :
    (rest.foldl scanStep s).i = (l ++ rest).length ∧
    (l ++ rest ≠ [] → ∃ x ∈ l ++ rest, (rest.foldl scanStep s).key = x.1 ∧
      (rest.foldl scanStep s).min = UnixMilli x.2.Created ∧
      ∀ y ∈ l ++ rest, (rest.foldl scanStep s).min ≤ UnixMilli y.2.Created) := by
  induction rest generalizing l s with
  | nil =>
    simp only [List.append_nil, List.foldl_nil]
    exact ⟨hi, hl⟩
  | cons e rest ih =>
    have h := scanStep_spec l s e hi hl
    have h2 := ih (l ++ [e]) (scanStep s e) h.1 (fun _ => h.2)
    simpa [List.append_assoc] using h2

/-- The scan of a non-empty map ends on the key of an entry whose creation time
in milliseconds is minimal. -/
theorem scan_spec (order : List (String × Item)) (h : order ≠ []) :
    ∃ x ∈ order, (scan order).key = x.1 ∧
      ∀ y ∈ order, UnixMilli x.2.Created ≤ UnixMilli y.2.Created := by
  have h1 := (foldl_scanStep_spec order [] { i := 0, min := 0, key := "" } rfl
    (fun hn => absurd rfl hn)).2
  simp only [List.nil_append] at h1
  obtain ⟨x, hx, hkey, hmin, hall⟩ := h1 h
  exact ⟨x, hx, hkey, fun y hy => hmin ▸ hall y hy⟩

theorem mapDelete_eq_erase (m : List (String × Item)) (hm : KeysNodup m) (k : String)
    (v : Item) (h : (k, v) ∈ m) : mapDelete m k = m.erase (k, v) := by
  induction m with
  | nil => simp at h
  | cons e m ih =>
    obtain ⟨a, b⟩ := e
    simp only [KeysNodup, List.map_cons, List.nodup_cons] at hm
    rw [mapDelete_cons_eq]
    by_cases hab : (a, b) = (k, v)
    · obtain ⟨rfl, rfl⟩ := Prod.mk.inj hab
      rw [if_pos rfl, List.erase_cons_head]
      apply mapDelete_of_lookup_none
      rw [mapLookup_eq_none_iff]
      intro e he hk
      exact hm.1 (hk ▸ List.mem_map_of_mem Prod.fst he)
    · have hmem : (k, v) ∈ m := by
        rcases List.mem_cons.1 h with h1 | h1
        · exact absurd h1.symm hab
        · exact h1
      have hak : a ≠ k := by
        intro h3
        exact hm.1 (h3 ▸ List.mem_map_of_mem Prod.fst hmem)
      rw [if_neg hak, ih hm.2 hmem, List.erase_cons_tail]
      simpa using hab

/-- C2, amended: Oldest-wins at millisecond granularity.  For every well-formed
cache holding more than one entry whose creation timestamps are pairwise
distinct in milliseconds (`UnixMilli`), and for every visiting order of the
map, `delOldCache` removes exactly one entry, the one whose creation timestamp
is strictly smaller than that of every other entry, and leaves every other
entry in place with its value and timestamp unchanged. -/
theorem C2_oldest_wins (c : Cache) (order : List (String × Item))
    (hwf : KeysNodup c.items) (hperm : order.Perm c.items) (hlen : 1 < c.items.length)
    (hdist : ∀ e1 ∈ c.items, ∀ e2 ∈ c.items, e1 ≠ e2 →
      UnixMilli e1.2.Created ≠ UnixMilli e2.2.Created) :
    ∃ e ∈ c.items,
      (∀ e' ∈ c.items, e' ≠ e → e.2.Created < e'.2.Created) ∧
      (delOldCache c order).1 = { c with items := c.items.erase e } ∧
      mapLookup (delOldCache c order).1.items e.1 = none ∧
      ∀ k, k ≠ e.1 → mapLookup (delOldCache c order).1.items k = mapLookup c.items k := by
  have hne : order ≠ [] := by
    intro h0
    rw [h0] at hperm
    rw [← hperm.length_eq] at hlen
    simp at hlen
  obtain ⟨x, hx, hkey, hmin⟩ := scan_spec order hne
  have hxm : x ∈ c.items := hperm.subset hx
  have hlook : mapLookup c.items x.1 = some x.2 := mapLookup_of_mem c.items hwf x.1 x.2 hxm
  have hdel : (delOldCache c order).1 = { c with items := mapDelete c.items x.1 } := by
    simp [delOldCache, hlen, hkey, Cache.Delete, hlook]
  refine ⟨x, hxm, ?_, ?_, ?_, ?_⟩
  · intro y hy hyx
    have h1 : UnixMilli x.2.Created ≤ UnixMilli y.2.Created := hmin y (hperm.symm.subset hy)
    have h2 := hdist x hxm y hy (Ne.symm hyx)
    exact lt_of_UnixMilli_lt (lt_of_le_of_ne h1 h2)
  · rw [hdel, mapDelete_eq_erase c.items hwf x.1 x.2 hxm]
  · rw [hdel]; exact mapLookup_mapDelete_self _ _
  · intro k hk
    rw [hdel]; exact mapLookup_mapDelete_of_ne _ hk

/-- C2, counterexample: two entries with distinct creation timestamps that fall
into the same millisecond, visited in the order a, b: the scan ends on b, so the
newer entry b is removed and the entry a with the minimum timestamp stays. -/
theorem C2_counterexample :
    KeysNodup sameMilliCache.items ∧ 1 < sameMilliCache.items.length ∧
    (∀ e1 ∈ sameMilliCache.items, ∀ e2 ∈ sameMilliCache.items, e1 ≠ e2 →
      e1.2.Created ≠ e2.2.Created) ∧
    List.Perm sameMilliCache.items sameMilliCache.items ∧
    (delOldCache sameMilliCache sameMilliCache.items).1.items
      = [("a.example", { Value := [1], Created := 1700000000000100000 })] :=
  ⟨by decide, by decide, by decide, List.Perm.refl _, by decide⟩

/-- Witness of C2 (amended): three entries one second apart, visited c, a, b. -/
theorem C2_oldest_wins_witness :
    ∃ e ∈ threeEntryCache.items,
      (∀ e' ∈ threeEntryCache.items, e' ≠ e → e.2.Created < e'.2.Created) ∧
      (delOldCache threeEntryCache (threeEntryCache.items.rotate 2)).1
        = { threeEntryCache with items := threeEntryCache.items.erase e } ∧
      mapLookup (delOldCache threeEntryCache (threeEntryCache.items.rotate 2)).1.items e.1
        = none ∧
      ∀ k, k ≠ e.1 →
        mapLookup (delOldCache threeEntryCache (threeEntryCache.items.rotate 2)).1.items k
          = mapLookup threeEntryCache.items k :=
  C2_oldest_wins threeEntryCache (threeEntryCache.items.rotate 2) (by decide)
    (List.rotate_perm _ _) (by decide) (by decide)

/-- C3: Single-entry eviction guard.  On a cache holding zero or one entries
`delOldCache` returns nil and leaves the whole cache, entry map and size counter
included, exactly as it was, for every visiting order and whatever the counter
is. -/
theorem C3_single_entry_guard (c : Cache) (order : List (String × Item))
    (h : c.items.length ≤ 1) :
    (delOldCache c order).1 = c ∧ (delOldCache c order).1.items = c.items ∧
    (delOldCache c order).1.cacheSize = c.cacheSize ∧ (delOldCache c order).2 = none := by
  have h1 : ¬ c.items.length > 1 := not_lt.2 h
  simp [delOldCache, h1]

/-- Witness of C3: one entry, counter 100. -/
theorem C3_single_entry_guard_witness :
    oneEntryCache.items.length ≤ 1 ∧
    ((delOldCache oneEntryCache oneEntryCache.items).1 = oneEntryCache ∧
     (delOldCache oneEntryCache oneEntryCache.items).1.items = oneEntryCache.items ∧
     (delOldCache oneEntryCache oneEntryCache.items).1.cacheSize = oneEntryCache.cacheSize ∧
     (delOldCache oneEntryCache oneEntryCache.items).2 = none) :=
  ⟨by decide, C3_single_entry_guard oneEntryCache oneEntryCache.items (by decide)⟩

theorem mapLookup_isSome_iff (m : List (String × Item)) (k : String) :
    (mapLookup m k).isSome ↔ k ∈ m.map Prod.fst := by
  rw [← Option.ne_none_iff_isSome, Ne, mapLookup_eq_none_iff]
  simp only [List.mem_map, not_forall]
  constructor
  · rintro ⟨e, he, hk⟩
    exact ⟨e, he, not_not.1 hk⟩
  · rintro ⟨e, he, hk⟩
    exact ⟨e, he, not_not.2 hk⟩

theorem mapLookup_eq_none_of_not_mem (m : List (String × Item)) (k : String)
    (h : k ∉ m.map Prod.fst) : mapLookup m k = none := by
  rw [mapLookup_eq_none_iff]
  intro e he hk
  exact h (hk ▸ List.mem_map_of_mem Prod.fst he)

theorem exists_mapLookup_of_mem (m : List (String × Item)) (k : String)
    (h : k ∈ m.map Prod.fst) : ∃ item, mapLookup m k = some item :=
  Option.isSome_iff_exists.1 ((mapLookup_isSome_iff m k).2 h)

theorem Get_snd_congr (c c' : Cache) (k : String) (now : Time)
    (h : mapLookup c.items k = mapLookup c'.items k) : (c.Get k now).2 = (c'.Get k now).2 := by
  unfold Cache.Get
  rw [h]
  cases mapLookup c'.items k <;> rfl

/-- C4: `Delete` returns the error "key not found" exactly when the key is not
stored and returns nil exactly when it is stored; a failed `Delete` leaves the
whole cache, entry map and size counter included, unchanged. -/
theorem C4_delete_fails_iff_absent (c : Cache) (key : String) :
    ((c.Delete key).2 = some "key not found" ↔ key ∉ c.items.map Prod.fst) ∧
    ((c.Delete key).2 = none ↔ key ∈ c.items.map Prod.fst) ∧
    (key ∉ c.items.map Prod.fst →
      (c.Delete key).1 = c ∧ (c.Delete key).1.items = c.items ∧
      (c.Delete key).1.cacheSize = c.cacheSize) := by
  by_cases h : key ∈ c.items.map Prod.fst
  · obtain ⟨item, hi⟩ := exists_mapLookup_of_mem c.items key h
    simp [Cache.Delete, hi, h]
  · have hi := mapLookup_eq_none_of_not_mem c.items key h
    simp [Cache.Delete, hi, h]

/-- Witness of C4: a key that is not stored and a key that is. -/
theorem C4_delete_fails_iff_absent_witness :
    "missing-key" ∉ threeEntryCache.items.map Prod.fst ∧
    (threeEntryCache.Delete "missing-key").2 = some "key not found" ∧
    (threeEntryCache.Delete "missing-key").1 = threeEntryCache ∧
    (threeEntryCache.Delete "a.example").2 = none :=
  ⟨by decide,
   (C4_delete_fails_iff_absent threeEntryCache "missing-key").1.2 (by decide),
   ((C4_delete_fails_iff_absent threeEntryCache "missing-key").2.2 (by decide)).1,
   (C4_delete_fails_iff_absent threeEntryCache "a.example").2.1.2 (by decide)⟩

/-- C5: a successful `Delete` removes exactly the entry of its key.  For a
stored key `Delete` returns nil; afterwards `Get` of that key reports
`found = false`, `Get` of every other key returns what it returned before, the
size counter is the same, and a second `Delete` of the key returns the error
"key not found". -/
theorem C5_delete_removes_exactly (c : Cache) (key : String)
    (h : key ∈ c.items.map Prod.fst) :
    (c.Delete key).2 = none ∧
    (∀ now, ((c.Delete key).1.Get key now).2 = ([], now, false)) ∧
    key ∉ (c.Delete key).1.items.map Prod.fst ∧
    (∀ k, k ≠ key → ∀ now, ((c.Delete key).1.Get k now).2 = (c.Get k now).2) ∧
    (∀ e, e.1 ≠ key → (e ∈ (c.Delete key).1.items ↔ e ∈ c.items)) ∧
    ((c.Delete key).1.Delete key).2 = some "key not found" := by
  obtain ⟨item, hi⟩ := exists_mapLookup_of_mem c.items key h
  have hd : (c.Delete key) = ({ c with items := mapDelete c.items key }, none) := by
    simp [Cache.Delete, hi]
  have hself := mapLookup_mapDelete_self c.items key
  rw [hd]
  refine ⟨rfl, ?_, ?_, ?_, ?_, ?_⟩
  · intro now
    simp [Cache.Get, hself]
  · simp [mapDelete]
  · intro k hk now
    exact Get_snd_congr _ _ k now (mapLookup_mapDelete_of_ne c.items hk)
  · intro e he
    simp [mapDelete, he]
  · simp [Cache.Delete, hself]

/-- Witness of C5: deleting a stored key of a three-entry cache. -/
theorem C5_delete_removes_exactly_witness :
    "a.example" ∈ threeEntryCache.items.map Prod.fst ∧
    (threeEntryCache.Delete "a.example").2 = none ∧
    ((threeEntryCache.Delete "a.example").1.Delete "a.example").2 = some "key not found" :=
  ⟨by decide,
   (C5_delete_removes_exactly threeEntryCache "a.example" (by decide)).1,
   (C5_delete_removes_exactly threeEntryCache "a.example" (by decide)).2.2.2.2.2⟩

/-- C6: Set/Get round trip.  After `Set(key, value)` at clock time `t`, whether
or not the key was stored before, `Get(key)` returns `(value, t, true)`, no
other entry for the key is left, and `Get` of every other key returns what it
returned before the `Set`. -/
theorem C6_set_get_round_trip (c : Cache) (key : String) (value : List Byte) (t : Time) :
    (∀ now, ((c.Set key value t).Get key now).2 = (value, t, true)) ∧
    (∀ e ∈ (c.Set key value t).items, e.1 = key → e.2 = { Value := value, Created := t }) ∧
    (∀ k, k ≠ key → ∀ now, ((c.Set key value t).Get k now).2 = (c.Get k now).2) := by
  refine ⟨?_, ?_, ?_⟩
  · intro now
    simp [Cache.Get, Cache.Set, mapLookup_mapStore_self]
  · intro e he hk
    simp only [Cache.Set, mapStore, mapDelete, List.mem_cons, List.mem_filter] at he
    rcases he with he | he
    · rw [he]
    · simp [hk] at he
  · intro k hk now
    exact Get_snd_congr _ _ k now (mapLookup_mapStore_of_ne c.items _ hk)

/-- C7: `Get` of a key that is not stored returns `found = false` with the
empty byte value; `Get` of a stored key returns `found = true` with exactly the
stored bytes and the stored creation timestamp. -/
theorem C7_get_result (c : Cache) (key : String) (now : Time) (hwf : KeysNodup c.items) :
    (key ∉ c.items.map Prod.fst →
      (c.Get key now).2.2.2 = false ∧ (c.Get key now).2.1 = []) ∧
    (∀ item, (key, item) ∈ c.items →
      (c.Get key now).2 = (item.Value, item.Created, true)) := by
  constructor
  · intro h
    simp [Cache.Get, mapLookup_eq_none_of_not_mem c.items key h]
  · intro item h
    simp [Cache.Get, mapLookup_of_mem c.items hwf key item h]

/-- Witness of C7: a stored key and a key that is not stored. -/
theorem C7_get_result_witness :
    KeysNodup threeEntryCache.items ∧
    (threeEntryCache.Get "missing-key" 5).2.2.2 = false ∧
    (threeEntryCache.Get "missing-key" 5).2.1 = [] ∧
    (threeEntryCache.Get "c.example" 5).2 = ([3, 3, 3], 1700000002000000000, true) :=
  ⟨by decide,
   ((C7_get_result threeEntryCache "missing-key" 5 (by decide)).1 (by decide)).1,
   ((C7_get_result threeEntryCache "missing-key" 5 (by decide)).1 (by decide)).2,
   (C7_get_result threeEntryCache "c.example" 5 (by decide)).2
     { Value := [3, 3, 3], Created := 1700000002000000000 } (by decide)⟩

theorem getRepeated_spec (c : Cache) (key : String) (item : Item)
    (h : mapLookup c.items key = some item) (nows : List Time) :
    getRepeated c key nows
      = (c, List.replicate nows.length (item.Value, item.Created, true)) := by
  induction nows with
  | nil => rfl
  | cons now rest ih =>
    have hg : c.Get key now = (c, (item.Value, item.Created, true)) := by
      simp [Cache.Get, h]
    simp [getRepeated, hg, ih, List.replicate_succ]

/-- C8: Idempotent hit path.  `Get` leaves the whole cache, entry map and size
counter included, as it was; so for a stored key any number of consecutive
`Get` calls all return, each of them with `found = true`, the same bytes and
the same creation timestamp, and the cache is unchanged afterwards. -/
theorem C8_get_idempotent (c : Cache) (key : String) (nows : List Time)
    (h : key ∈ c.items.map Prod.fst) :
    (∀ now, (c.Get key now).1 = c) ∧
    (getRepeated c key nows).1 = c ∧
    (getRepeated c key nows).2.length = nows.length ∧
    ∃ value created, ∀ r ∈ (getRepeated c key nows).2, r = (value, created, true) := by
  obtain ⟨item, hi⟩ := exists_mapLookup_of_mem c.items key h
  rw [getRepeated_spec c key item hi nows]
  refine ⟨fun now => Get_fst c key now, rfl, by simp, item.Value, item.Created, ?_⟩
  intro r hr
  exact (List.mem_replicate.1 hr).2

/-- Witness of C8: three consecutive reads of a stored key. -/
theorem C8_get_idempotent_witness :
    "b.example" ∈ threeEntryCache.items.map Prod.fst ∧
    (getRepeated threeEntryCache "b.example" [10, 20, 30]).1 = threeEntryCache ∧
    (getRepeated threeEntryCache "b.example" [10, 20, 30]).2.length = 3 :=
  ⟨by decide,
   (C8_get_idempotent threeEntryCache "b.example" [10, 20, 30] (by decide)).2.1,
   (C8_get_idempotent threeEntryCache "b.example" [10, 20, 30] (by decide)).2.2.1⟩

/-! ## The request handler -/

theorem Get_found_of_lookup_none (c : Cache) (key : String) (now : Time)
    (h : mapLookup c.items key = none) : c.Get key now = (c, ([], now, false)) := by
  simp [Cache.Get, h]

theorem Get_of_lookup_some (c : Cache) (key : String) (now : Time) (item : Item)
    (h : mapLookup c.items key = some item) :
    c.Get key now = (c, (item.Value, item.Created, true)) := by
  simp [Cache.Get, h]

/-- The miss branch with a body read in full, spelled out. -/
theorem HandlerProxy_miss (c : Cache) (env : Env) (config : Config) (body : List Byte)
    (hcfg : env.configFile = .decoded config)
    (hmiss : config.Address ∉ c.items.map Prod.fst)
    (hfetch : env.fetch = .ok body) :
    HandlerProxy c env =
      { cache := (checkBudget (accountAndStore c config body env.nowSet) config
          (Int.tdiv (binarySize body) 1024) env.order).1
        exit := .responded 200 (((checkBudget (accountAndStore c config body env.nowSet) config
          (Int.tdiv (binarySize body) 1024) env.order).1.Get config.Address env.nowGet2).2.1)
        trace := fetchEvent config (.ok body) ::
          (checkBudget (accountAndStore c config body env.nowSet) config
            (Int.tdiv (binarySize body) 1024) env.order).2 } := by
  have hl := mapLookup_eq_none_of_not_mem c.items config.Address hmiss
  simp [HandlerProxy, readConfig, hcfg, hfetch, Get_found_of_lookup_none c _ _ hl]

/-- Every request either leaves the cache alone and evicts nothing, or runs the
miss branch with a body read in full. -/
theorem HandlerProxy_cases (c : Cache) (env : Env) :
    ((HandlerProxy c env).cache = c ∧ evictCount (HandlerProxy c env).trace = 0) ∨
    ∃ config body, env.configFile = .decoded config ∧
      config.Address ∉ c.items.map Prod.fst ∧ env.fetch = .ok body := by
  rcases hcf : env.configFile with _ | _ | config
  · left; simp [HandlerProxy, readConfig, hcf, evictCount]
  · left; simp [HandlerProxy, readConfig, hcf, evictCount]
  · by_cases hmem : config.Address ∈ c.items.map Prod.fst
    · obtain ⟨item, hi⟩ := exists_mapLookup_of_mem c.items _ hmem
      left
      simp [HandlerProxy, readConfig, hcf, evictCount, Get_of_lookup_some c _ _ item hi]
    · have hl := mapLookup_eq_none_of_not_mem c.items config.Address hmem
      rcases hf : env.fetch with _ | _ | _ | body
      · left
        simp [HandlerProxy, readConfig, hcf, hf, evictCount, Get_found_of_lookup_none c _ _ hl]
      · left
        simp [HandlerProxy, readConfig, hcf, hf, evictCount, fetchEvent,
          Get_found_of_lookup_none c _ _ hl]
      · left
        simp [HandlerProxy, readConfig, hcf, hf, evictCount, fetchEvent,
          Get_found_of_lookup_none c _ _ hl]
      · right
        exact ⟨config, body, rfl, hmem, rfl⟩

theorem floor_div_1024 (n : Nat) : ⌊(n : ℚ) / 1024⌋ = ((n / 1024 : Nat) : Int) := by
  have h := Rat.floor_natCast_div_natCast n 1024
  simpa using h

theorem HandlerProxy_miss_cacheSize (c : Cache) (env : Env) (config : Config)
    (body : List Byte) (hcfg : env.configFile = .decoded config)
    (hmiss : config.Address ∉ c.items.map Prod.fst) (hfetch : env.fetch = .ok body) :
    (HandlerProxy c env).cache.cacheSize
      = wrapInt (c.cacheSize + ((body.length / 1024 : Nat) : Int)) := by
  rw [HandlerProxy_miss c env config body hcfg hmiss hfetch]
  simp [accountAndStore_cacheSize]

/-- C9, counterexample: on the empty cache whose size counter holds the
greatest `int`, `2^63 - 1`, a miss that fetches a 1024-byte body, with
`floor(1024/1024) = 1`, leaves the counter at the least `int`, `-2^63`: the
addition of main.go:175 wraps around and the counter did not grow by 1. -/
theorem C9_counterexample :
    fullCounterCache.cacheSize = 9223372036854775807 ∧
    kb1Env.fetch = .ok (List.replicate 1024 0) ∧
    ⌊(((List.replicate 1024 (0 : Byte)).length : Nat) : ℚ) / 1024⌋ = 1 ∧
    (HandlerProxy fullCounterCache kb1Env).cache.cacheSize = -9223372036854775808 := by
  refine ⟨rfl, rfl, ?_, ?_⟩
  · rw [floor_div_1024, List.length_replicate]; decide
  · rw [HandlerProxy_miss_cacheSize fullCounterCache kb1Env scenarioAConfig
      (List.replicate 1024 0) rfl (by decide) rfl, List.length_replicate]
    decide

/-- C9, amended: Miss-path size accounting.  On the miss branch of
`HandlerProxy` with a body read in full, the size counter becomes the old
counter plus `floor(len(body)/1024)`, wrapped into the range of `int`; whenever
that sum does not exceed the greatest `int`, `2^63 - 1`, the counter grows by
exactly `floor(len(body)/1024)`, and a body shorter than 1024 bytes always
leaves it unchanged.  Lines 169-177 do this and then store the body under the
configured host key with the clock reading of `Set`, and the request ends on
the budget check applied to that cache. -/
theorem C9_miss_path_accounting (c : Cache) (env : Env) (config : Config) (body : List Byte)
    (hcfg : env.configFile = .decoded config)
    (hmiss : config.Address ∉ c.items.map Prod.fst)
    (hfetch : env.fetch = .ok body) :
    (HandlerProxy c env).cache.cacheSize
      = wrapInt (c.cacheSize + ⌊(body.length : ℚ) / 1024⌋) ∧
    (c.cacheSize + ⌊(body.length : ℚ) / 1024⌋ ≤ maxInt →
      (HandlerProxy c env).cache.cacheSize = c.cacheSize + ⌊(body.length : ℚ) / 1024⌋) ∧
    (body.length < 1024 → (HandlerProxy c env).cache.cacheSize = c.cacheSize) ∧
    (accountAndStore c config body env.nowSet).cacheSize
      = wrapInt (c.cacheSize + ⌊(body.length : ℚ) / 1024⌋) ∧
    (∀ now, ((accountAndStore c config body env.nowSet).Get config.Address now).2
      = (body, env.nowSet, true)) ∧
    (HandlerProxy c env).cache
      = (checkBudget (accountAndStore c config body env.nowSet) config
          (Int.tdiv (binarySize body) 1024) env.order).1 := by
  have hsize := HandlerProxy_miss_cacheSize c env config body hcfg hmiss hfetch
  rw [floor_div_1024]
  refine ⟨hsize, ?_, ?_, accountAndStore_cacheSize c config body env.nowSet, ?_, ?_⟩
  · intro hle
    rw [hsize]
    exact wrapInt_add_of_le c.cacheSizeInt (Int.natCast_nonneg _) hle
  · intro hlt
    rw [hsize, Nat.div_eq_of_lt hlt]
    simp [wrapInt_cacheSize]
  · intro now
    simp [accountAndStore, Cache.Get, Cache.Set, mapLookup_mapStore_self]
  · rw [HandlerProxy_miss c env config body hcfg hmiss hfetch]

/-- Witness of C9 (amended): a 2048-byte body on a cache with counter 11 moves
the counter to 13. -/
theorem C9_miss_path_accounting_witness :
    kb2Env.configFile = .decoded kb2Config ∧
    kb2Config.Address ∉ threeEntryCache.items.map Prod.fst ∧
    kb2Env.fetch = .ok (List.replicate 2048 0) ∧
    threeEntryCache.cacheSize = 11 ∧
    (HandlerProxy threeEntryCache kb2Env).cache.cacheSize = 13 := by
  have h := (C9_miss_path_accounting threeEntryCache kb2Env kb2Config
    (List.replicate 2048 0) rfl (by decide) rfl).2.1
  rw [floor_div_1024, List.length_replicate] at h
  exact ⟨rfl, by decide, rfl, rfl, (h (by decide)).trans (by decide)⟩

theorem evictCount_checkBudget (c : Cache) (config : Config) (newSize : Int)
    (order : List (String × Item)) :
    evictCount (checkBudget c config newSize order).2
      = if config.CacheSize ≤ c.cacheSize then 1 else 0 := by
  unfold checkBudget
  by_cases h : c.cacheSize ≥ config.CacheSize
  · simp [h, ge_iff_le.1 h, evictCount]
  · simp [h, evictCount]

theorem evictCount_fetch_cons (config : Config) (r : FetchResult) (t : List Event) :
    evictCount (fetchEvent config r :: t) = evictCount t := by
  simp [evictCount, fetchEvent]

theorem delOldCache_lookup (c : Cache) (order : List (String × Item)) :
    ∃ k, ∀ k', k' ≠ k →
      mapLookup (delOldCache c order).1.items k' = mapLookup c.items k' := by
  refine ⟨(scan order).key, fun k' hk => ?_⟩
  unfold delOldCache Cache.Delete
  dsimp only
  split
  · split
    · rfl
    · exact mapLookup_mapDelete_of_ne _ hk
  · rfl

/-- C10: Single-step eviction policy.  A request invokes `delOldCache` at most
once.  On the miss branch it is invoked (exactly once) if and only if the
updated size counter is greater than or equal to the configured budget; the
cache the request leaves behind is then the one a single `delOldCache` makes of
the cache after the store, and the counter still meets or exceeds the budget;
otherwise it is the cache after the store.  The updated counter is the old
counter plus `floor(len(body)/1024)`, wrapped into the range of `int`.  For
every state, all keys stored before the request but at most one are stored with
the same entry after it. -/
theorem C10_single_step_eviction (c : Cache) (env : Env) :
    evictCount (HandlerProxy c env).trace ≤ 1 ∧
    (∀ config body, env.configFile = .decoded config →
      config.Address ∉ c.items.map Prod.fst → env.fetch = .ok body →
      (evictCount (HandlerProxy c env).trace = 1 ↔
        config.CacheSize ≤ wrapInt (c.cacheSize + ⌊(body.length : ℚ) / 1024⌋)) ∧
      (config.CacheSize ≤ wrapInt (c.cacheSize + ⌊(body.length : ℚ) / 1024⌋) →
        (HandlerProxy c env).cache
          = (delOldCache (accountAndStore c config body env.nowSet) env.order).1 ∧
        config.CacheSize ≤ (HandlerProxy c env).cache.cacheSize) ∧
      (¬ config.CacheSize ≤ wrapInt (c.cacheSize + ⌊(body.length : ℚ) / 1024⌋) →
        evictCount (HandlerProxy c env).trace = 0 ∧
        (HandlerProxy c env).cache = accountAndStore c config body env.nowSet)) ∧
    (∃ k, ∀ k', k' ≠ k → ∀ item, mapLookup c.items k' = some item →
      mapLookup (HandlerProxy c env).cache.items k' = some item) := by
  have hmissfacts : ∀ config body, env.configFile = .decoded config →
      config.Address ∉ c.items.map Prod.fst → env.fetch = .ok body →
      evictCount (HandlerProxy c env).trace
        = (if config.CacheSize ≤ wrapInt (c.cacheSize + ⌊(body.length : ℚ) / 1024⌋) then 1 else 0) ∧
      (HandlerProxy c env).cache
        = (checkBudget (accountAndStore c config body env.nowSet) config
            (Int.tdiv (binarySize body) 1024) env.order).1 := by
    intro config body hcfg hmiss hfetch
    rw [HandlerProxy_miss c env config body hcfg hmiss hfetch]
    refine ⟨?_, rfl⟩
    simp only [evictCount_fetch_cons, evictCount_checkBudget, accountAndStore_cacheSize,
      floor_div_1024]
  refine ⟨?_, ?_, ?_⟩
  · rcases HandlerProxy_cases c env with h | ⟨config, body, hcfg, hmiss, hfetch⟩
    · rw [h.2]; exact Nat.zero_le 1
    · rw [(hmissfacts config body hcfg hmiss hfetch).1]
      split <;> decide
  · intro config body hcfg hmiss hfetch
    obtain ⟨hcount, hcache⟩ := hmissfacts config body hcfg hmiss hfetch
    refine ⟨?_, ?_, ?_⟩
    · rw [hcount]
      by_cases h : config.CacheSize ≤ wrapInt (c.cacheSize + ⌊(body.length : ℚ) / 1024⌋) <;> simp [h]
    · intro h
      have h' : (accountAndStore c config body env.nowSet).cacheSize ≥ config.CacheSize := by
        rw [accountAndStore_cacheSize, ← floor_div_1024]; exact h
      rw [hcache]
      constructor
      · rw [checkBudget, if_pos h']
      · rw [checkBudget_cacheSize]; exact h'
    · intro h
      have h' : ¬ (accountAndStore c config body env.nowSet).cacheSize ≥ config.CacheSize := by
        rw [accountAndStore_cacheSize, ← floor_div_1024]; exact h
      rw [hcount, hcache, checkBudget, if_neg h', if_neg h]
      exact ⟨rfl, rfl⟩
  · rcases HandlerProxy_cases c env with h | ⟨config, body, hcfg, hmiss, hfetch⟩
    · rw [h.1]
      exact ⟨"", fun k' _ item hi => hi⟩
    · obtain ⟨_, hcache⟩ := hmissfacts config body hcfg hmiss hfetch
      have hl := mapLookup_eq_none_of_not_mem c.items config.Address hmiss
      have hstore : ∀ k' item, mapLookup c.items k' = some item →
          mapLookup (accountAndStore c config body env.nowSet).items k' = some item := by
        intro k' item hi
        have hne : k' ≠ config.Address := by
          intro h0; rw [h0, hl] at hi; exact Option.noConfusion hi
        simp only [accountAndStore, Cache.Set]
        rw [mapLookup_mapStore_of_ne _ _ hne]; exact hi
      rw [hcache]
      unfold checkBudget
      split
      · obtain ⟨k, hk⟩ := delOldCache_lookup (accountAndStore c config body env.nowSet) env.order
        exact ⟨k, fun k' hne item hi => by rw [hk k' hne]; exact hstore k' item hi⟩
      · exact ⟨"", fun k' _ item hi => hstore k' item hi⟩

/-- Witness of C10: a 3-byte body on a three-entry cache with counter 11 and
budget 10: one eviction, the oldest entry goes, the counter stays at 11. -/
theorem C10_single_step_eviction_witness :
    evictCount (HandlerProxy threeEntryCache overBudgetEnv).trace = 1 ∧
    (HandlerProxy threeEntryCache overBudgetEnv).cache.cacheSize = 11 ∧
    (HandlerProxy threeEntryCache overBudgetEnv).cache.items.map Prod.fst
      = ["example.org", "b.example", "c.example"] :=
  ⟨((C10_single_step_eviction threeEntryCache overBudgetEnv).2.1
      { Ip := "10.0.0.1:8080", Address := "example.org", CacheSize := 10 }
      [7, 7, 7] (by decide) (by decide) (by decide)).1.2
        (by rw [floor_div_1024]; decide),
   by decide, by decide⟩

/-! ## Hit path and Scenario A -/

theorem HandlerProxy_hit (c : Cache) (env : Env) (config : Config) (item : Item)
    (hcfg : env.configFile = .decoded config)
    (hlook : mapLookup c.items config.Address = some item) :
    HandlerProxy c env = { cache := c, exit := .responded 200 item.Value, trace := [] } := by
  simp [HandlerProxy, readConfig, hcfg, Get_of_lookup_some c _ _ item hlook]

theorem HandlerProxy_eq_missBranch (c : Cache) (env : Env) (config : Config)
    (body : List Byte) (hcfg : env.configFile = .decoded config)
    (hmiss : config.Address ∉ c.items.map Prod.fst) (hfetch : env.fetch = .ok body) :
    HandlerProxy c env = missBranch c config body env := by
  rw [HandlerProxy_miss c env config body hcfg hmiss hfetch]
  simp [missBranch]

/-- C11: Hit path.  When the configured host key is stored, `HandlerProxy`
does nothing but read: its trace is empty (no fetch, no eviction), the whole
cache, entry map and size counter included, is unchanged, and it responds with
status 200 and the bytes stored under that key. -/
theorem C11_hit_path (c : Cache) (env : Env) (config : Config) (item : Item)
    (hcfg : env.configFile = .decoded config) (hwf : KeysNodup c.items)
    (hmem : (config.Address, item) ∈ c.items) :
    (HandlerProxy c env).trace = [] ∧
    (HandlerProxy c env).cache = c ∧
    (HandlerProxy c env).cache.items = c.items ∧
    (HandlerProxy c env).cache.cacheSize = c.cacheSize ∧
    (HandlerProxy c env).exit = .responded 200 item.Value := by
  rw [HandlerProxy_hit c env config item hcfg (mapLookup_of_mem c.items hwf _ item hmem)]
  exact ⟨rfl, rfl, rfl, rfl, rfl⟩

/-- Witness of C11: the host of the request is one of three stored keys. -/
theorem C11_hit_path_witness :
    KeysNodup threeEntryCache.items ∧
    (HandlerProxy threeEntryCache
      { overBudgetEnv with
        configFile := .decoded { Ip := "10.0.0.1:8080", Address := "c.example", CacheSize := 10 } }).exit
      = .responded 200 [3, 3, 3] :=
  ⟨by decide,
   (C11_hit_path threeEntryCache
      { overBudgetEnv with
        configFile := .decoded { Ip := "10.0.0.1:8080", Address := "c.example", CacheSize := 10 } }
      { Ip := "10.0.0.1:8080", Address := "c.example", CacheSize := 10 }
      { Value := [3, 3, 3], Created := 1700000002000000000 }
      rfl (by decide) (by decide)).2.2.2.2⟩

/-- C12: Scenario A, generalised.  On the empty cache with counter 0 and a
positive budget, a request whose fetch returns a body shorter than 1024 bytes
takes the miss path: it fetches, adds 0 to the size counter, stores the body
under the host key, evicts nothing and responds with the body.  The next
request for the same key is a hit: its trace is empty (no fetch), the cache is
unchanged and it responds with exactly the same bytes. -/
theorem C12_scenario_A (c : Cache) (env1 env2 : Env) (config config2 : Config)
    (body : List Byte)
    (hitems : c.items = []) (hsize : c.cacheSize = 0)
    (hcfg1 : env1.configFile = .decoded config) (hbudget : 0 < config.CacheSize)
    (hfetch : env1.fetch = .ok body) (hlen : body.length < 1024)
    (hcfg2 : env2.configFile = .decoded config2) (hkey : config2.Address = config.Address) :
    (HandlerProxy c env1).trace = [fetchEvent config (.ok body), Event.print 0 0] ∧
    evictCount (HandlerProxy c env1).trace = 0 ∧
    (HandlerProxy c env1).cache.cacheSize = 0 ∧
    (HandlerProxy c env1).cache.items
      = [(config.Address, { Value := body, Created := env1.nowSet })] ∧
    (HandlerProxy c env1).exit = .responded 200 body ∧
    (HandlerProxy (HandlerProxy c env1).cache env2).trace = [] ∧
    (HandlerProxy (HandlerProxy c env1).cache env2).cache = (HandlerProxy c env1).cache ∧
    (HandlerProxy (HandlerProxy c env1).cache env2).exit = .responded 200 body := by
  have hmiss : config.Address ∉ c.items.map Prod.fst := by simp [hitems]
  have hdiv : Int.tdiv (binarySize body) 1024 = 0 := by
    rw [tdiv_binarySize, Nat.div_eq_of_lt hlen]; rfl
  have hstore : accountAndStore c config body env1.nowSet
      = { c with items := [(config.Address, { Value := body, Created := env1.nowSet })] } := by
    simp [accountAndStore, hdiv, Cache.Set, mapStore, mapDelete, hitems, wrapInt_cacheSize]
  have hnot : ¬ (accountAndStore c config body env1.nowSet).cacheSize ≥ config.CacheSize := by
    rw [hstore]; simp only [hsize]; exact not_le.2 hbudget
  have hcb : checkBudget (accountAndStore c config body env1.nowSet) config 0 env1.order
      = (accountAndStore c config body env1.nowSet,
          [Event.print 0 (accountAndStore c config body env1.nowSet).cacheSize]) := by
    rw [checkBudget, if_neg hnot]
  have h1 : HandlerProxy c env1
      = { cache := { c with items := [(config.Address, { Value := body, Created := env1.nowSet })] }
          exit := .responded 200 body
          trace := [fetchEvent config (.ok body), Event.print 0 0] } := by
    rw [HandlerProxy_miss c env1 config body hcfg1 hmiss hfetch, hdiv, hcb, hstore]
    simp [Cache.Get, mapLookup, hsize]
  have h2 : HandlerProxy (HandlerProxy c env1).cache env2
      = { cache := (HandlerProxy c env1).cache, exit := .responded 200 body, trace := [] } := by
    apply HandlerProxy_hit _ env2 config2 { Value := body, Created := env1.nowSet } hcfg2
    rw [h1, hkey]
    simp [mapLookup]
  rw [h2, h1]
  refine ⟨rfl, ?_, hsize, rfl, rfl, rfl, rfl, rfl⟩
  simp [evictCount, fetchEvent]

set_option maxRecDepth 100000 in
/-- Witness of C12: budget 10 KB and a 500-byte body on the fresh cache. -/
theorem C12_scenario_A_witness :
    cache.items = [] ∧ cache.cacheSize = 0 ∧ 0 < scenarioAConfig.CacheSize ∧
    (List.replicate 500 (0 : Byte)).length < 1024 ∧
    (HandlerProxy cache scenarioAEnv).cache.cacheSize = 0 ∧
    (HandlerProxy (HandlerProxy cache scenarioAEnv).cache scenarioAEnv2).trace = [] ∧
    (HandlerProxy (HandlerProxy cache scenarioAEnv).cache scenarioAEnv2).exit
      = .responded 200 (List.replicate 500 0) :=
  ⟨by decide, by decide, by decide, by decide,
   (C12_scenario_A cache scenarioAEnv scenarioAEnv2 scenarioAConfig scenarioAConfig
      (List.replicate 500 0) rfl rfl rfl (by decide) rfl (by decide) rfl rfl).2.2.1,
   (C12_scenario_A cache scenarioAEnv scenarioAEnv2 scenarioAConfig scenarioAConfig
      (List.replicate 500 0) rfl rfl rfl (by decide) rfl (by decide) rfl rfl).2.2.2.2.2.1,
   (C12_scenario_A cache scenarioAEnv scenarioAEnv2 scenarioAConfig scenarioAConfig
      (List.replicate 500 0) rfl rfl rfl (by decide) rfl (by decide) rfl rfl).2.2.2.2.2.2.2⟩

/-! ## Eviction inside a request -/

/-- On a map of more than one entry `delOldCache` deletes the key its scan ends
on, the key of an entry whose creation time in milliseconds is minimal. -/
theorem delOldCache_spec (c : Cache) (order : List (String × Item))
    (hperm : order.Perm c.items) (hlen : 1 < c.items.length) :
    ∃ x ∈ c.items, (∀ y ∈ c.items, UnixMilli x.2.Created ≤ UnixMilli y.2.Created) ∧
      (delOldCache c order).1 = { c with items := mapDelete c.items x.1 } := by
  have hne : order ≠ [] := by
    intro h0
    rw [h0] at hperm
    rw [← hperm.length_eq] at hlen
    simp at hlen
  obtain ⟨x, hx, hkey, hmin⟩ := scan_spec order hne
  have hxm : x ∈ c.items := hperm.subset hx
  obtain ⟨item, hlook⟩ := exists_mapLookup_of_mem c.items x.1 (List.mem_map_of_mem Prod.fst hxm)
  refine ⟨x, hxm, fun y hy => hmin y (hperm.symm.subset hy), ?_⟩
  simp [delOldCache, hlen, hkey, Cache.Delete, hlook]

theorem accountAndStore_items (c : Cache) (config : Config) (body : List Byte) (now : Time)
    (hmiss : config.Address ∉ c.items.map Prod.fst) :
    (accountAndStore c config body now).items
      = (config.Address, { Value := body, Created := now }) :: c.items := by
  have hl := mapLookup_eq_none_of_not_mem c.items config.Address hmiss
  simp [accountAndStore, Cache.Set, mapStore, mapDelete_of_lookup_none c.items _ hl]

/-- C18: The entry just fetched survives its own eviction step.  On the miss
branch with a body read in full, if the creation time stamped by `Set` is
strictly later, in milliseconds, than the creation time of every entry already
stored, then after the request the host key still holds the fetched body with
that time stamp, for every budget and every visiting order of the eviction
scan, and the response is status 200 with the fetched body. -/
theorem C18_fetched_entry_survives (c : Cache) (env : Env) (config : Config)
    (body : List Byte)
    (hcfg : env.configFile = .decoded config)
    (hmiss : config.Address ∉ c.items.map Prod.fst)
    (hfetch : env.fetch = .ok body)
    (horder : env.order.Perm (accountAndStore c config body env.nowSet).items)
    (hlater : ∀ e ∈ c.items, UnixMilli e.2.Created < UnixMilli env.nowSet) :
    mapLookup (HandlerProxy c env).cache.items config.Address
      = some { Value := body, Created := env.nowSet } ∧
    (HandlerProxy c env).exit = .responded 200 body := by
  have hitems := accountAndStore_items c config body env.nowSet hmiss
  have hstored : mapLookup (accountAndStore c config body env.nowSet).items config.Address
      = some { Value := body, Created := env.nowSet } := by
    rw [hitems]; simp [mapLookup]
  have hkeep : mapLookup (checkBudget (accountAndStore c config body env.nowSet) config
      (Int.tdiv (binarySize body) 1024) env.order).1.items config.Address
      = some { Value := body, Created := env.nowSet } := by
    unfold checkBudget
    split
    · by_cases hlen : 1 < (accountAndStore c config body env.nowSet).items.length
      · obtain ⟨x, hx, hmin, hdel⟩ :=
          delOldCache_spec (accountAndStore c config body env.nowSet) env.order horder hlen
        have hxne : x.1 ≠ config.Address := by
          rw [hitems] at hx hmin hlen
          rcases List.mem_cons.1 hx with hx0 | hx0
          · exfalso
            obtain ⟨y, hy⟩ : ∃ y, y ∈ c.items := by
              cases hc : c.items with
              | nil => rw [hc] at hlen; simp at hlen
              | cons y _ => exact ⟨y, List.mem_cons_self _ _⟩
            have h1 := hmin y (List.mem_cons_of_mem _ hy)
            have h2 := hlater y hy
            rw [hx0] at h1
            exact absurd h1 (not_le.2 h2)
          · intro h0
            exact hmiss (h0 ▸ List.mem_map_of_mem Prod.fst hx0)
        simp only [hdel]
        rw [mapLookup_mapDelete_of_ne _ (Ne.symm hxne)]
        exact hstored
      · simp only [delOldCache, hlen, if_false]
        exact hstored
    · exact hstored
  rw [HandlerProxy_miss c env config body hcfg hmiss hfetch]
  refine ⟨hkeep, ?_⟩
  simp [Cache.Get, hkeep]

/-- Witness of C18: a request on the three-entry cache, stamped after all three
stored entries. -/
theorem C18_fetched_entry_survives_witness :
    mapLookup (HandlerProxy threeEntryCache overBudgetEnv).cache.items "example.org"
      = some { Value := [7, 7, 7], Created := 1700000003500000000 } ∧
    (HandlerProxy threeEntryCache overBudgetEnv).exit = .responded 200 [7, 7, 7] :=
  C18_fetched_entry_survives threeEntryCache overBudgetEnv
    { Ip := "10.0.0.1:8080", Address := "example.org", CacheSize := 10 } [7, 7, 7]
    rfl (by decide) rfl (by decide) (by decide)

/-- C13, counterexample: two entries created at `t1 < t2`, a further key
fetched, the counter at or above the budget, one `delOldCache`.  First input:
`t1` and `t2` lie in the same millisecond and the scan visits the older entry
first: the `t2` entry is removed and the `t1` entry stays.  Second input: the
clock reading at `Set` lies before `t1`: the entry just stored is removed and
both older entries stay. -/
theorem C13_counterexample :
    (sameMilliCache.items
        = [("a.example", { Value := [1], Created := 1700000000000100000 }),
           ("b.example", { Value := [2], Created := 1700000000000200000 })] ∧
      (1700000000000100000 : Time) < 1700000000000200000 ∧
      List.Perm sameMilliEnv.order
        (accountAndStore sameMilliCache
          { Ip := "10.0.0.1:8080", Address := "example.org", CacheSize := 0 }
          [7, 7, 7] sameMilliEnv.nowSet).items ∧
      evictCount (HandlerProxy sameMilliCache sameMilliEnv).trace = 1 ∧
      (HandlerProxy sameMilliCache sameMilliEnv).cache.items
        = [("example.org", { Value := [7, 7, 7], Created := 1700000001000100000 }),
           ("a.example", { Value := [1], Created := 1700000000000100000 })]) ∧
    (List.Perm clockBackEnv.order
        (accountAndStore scenarioBCache
          { Ip := "10.0.0.1:8080", Address := "example.org", CacheSize := 10 }
          [7, 7, 7] clockBackEnv.nowSet).items ∧
      evictCount (HandlerProxy scenarioBCache clockBackEnv).trace = 1 ∧
      (HandlerProxy scenarioBCache clockBackEnv).cache.items.map Prod.fst
        = ["a.example", "b.example"]) :=
  ⟨⟨rfl, by decide, by decide, by decide, by decide⟩,
   ⟨List.Perm.cons _ (List.Perm.swap _ _ _), by decide, by decide⟩⟩

theorem KeysNodup_of_perm {m m' : List (String × Item)} (h : m.Perm m')
    (hm : KeysNodup m') : KeysNodup m := by
  unfold KeysNodup at *
  exact (h.map Prod.fst).nodup_iff.2 hm

/-- C13, amended: Scenario B, generalised.  For every cache holding two
entries created at times `t1` and `t2` with `t1` earlier than `t2` in
milliseconds, when a miss-path fetch for a further key, stamped by `Set` later
than `t1` in milliseconds, makes the size counter meet or exceed the budget,
exactly one `delOldCache` runs and it removes the `t1` entry only: the cache
then holds the `t2` entry and the newly stored entry, for every visiting order
of the scan. -/
theorem C13_scenario_B (c : Cache) (env : Env) (config : Config) (body : List Byte)
    (k1 k2 : String) (v1 v2 : Item)
    (hitems : c.items.Perm [(k1, v1), (k2, v2)]) (hk : k1 ≠ k2)
    (hcfg : env.configFile = .decoded config)
    (hk1 : config.Address ≠ k1) (hk2 : config.Address ≠ k2)
    (hfetch : env.fetch = .ok body)
    (horder : env.order.Perm (accountAndStore c config body env.nowSet).items)
    (h12 : UnixMilli v1.Created < UnixMilli v2.Created)
    (h13 : UnixMilli v1.Created < UnixMilli env.nowSet)
    (hbudget : config.CacheSize ≤ wrapInt (c.cacheSize + ⌊(body.length : ℚ) / 1024⌋)) :
    evictCount (HandlerProxy c env).trace = 1 ∧
    (HandlerProxy c env).cache.items.Perm
      [(config.Address, { Value := body, Created := env.nowSet }), (k2, v2)] ∧
    mapLookup (HandlerProxy c env).cache.items k1 = none ∧
    mapLookup (HandlerProxy c env).cache.items k2 = some v2 ∧
    mapLookup (HandlerProxy c env).cache.items config.Address
      = some { Value := body, Created := env.nowSet } := by
  have hwf : KeysNodup c.items := by
    apply KeysNodup_of_perm hitems
    simp [KeysNodup, hk]
  have hmiss : config.Address ∉ c.items.map Prod.fst := by
    intro h
    have h' := ((hitems.map Prod.fst).mem_iff).1 h
    simp at h'
    rcases h' with h' | h'
    · exact hk1 h'
    · exact hk2 h'
  have hstore := accountAndStore_items c config body env.nowSet hmiss
  have hge : (accountAndStore c config body env.nowSet).cacheSize ≥ config.CacheSize := by
    rw [accountAndStore_cacheSize, ← floor_div_1024]; exact hbudget
  have hlen : 1 < (accountAndStore c config body env.nowSet).items.length := by
    rw [hstore, List.length_cons, hitems.length_eq]; simp
  obtain ⟨x, hx, hmin, hdel⟩ :=
    delOldCache_spec (accountAndStore c config body env.nowSet) env.order horder hlen
  have hm1 : (k1, v1) ∈ c.items := hitems.mem_iff.2 (by simp)
  have hm2 : (k2, v2) ∈ c.items := hitems.mem_iff.2 (by simp)
  have hx1 : x = (k1, v1) := by
    have hle : UnixMilli x.2.Created ≤ UnixMilli v1.Created :=
      hmin (k1, v1) (by rw [hstore]; exact List.mem_cons_of_mem _ hm1)
    rw [hstore] at hx
    rcases List.mem_cons.1 hx with h0 | h0
    · rw [h0] at hle
      exact absurd hle (not_le.2 h13)
    · have h0' := hitems.mem_iff.1 h0
      simp only [List.mem_cons, List.mem_singleton, List.not_mem_nil, or_false] at h0'
      rcases h0' with h0' | h0'
      · exact h0'
      · rw [h0'] at hle
        exact absurd hle (not_le.2 h12)
  rw [hx1] at hdel
  have hcache : (HandlerProxy c env).cache
      = { accountAndStore c config body env.nowSet with
          items := mapDelete (accountAndStore c config body env.nowSet).items k1 } := by
    rw [HandlerProxy_miss c env config body hcfg hmiss hfetch]
    simp only [Get_fst, checkBudget, if_pos hge, hdel]
  have hcount : evictCount (HandlerProxy c env).trace = 1 := by
    rw [HandlerProxy_miss c env config body hcfg hmiss hfetch]
    simp only [evictCount_fetch_cons, evictCount_checkBudget]
    rw [if_pos (ge_iff_le.1 hge)]
  have hitems' : (HandlerProxy c env).cache.items
      = (config.Address, { Value := body, Created := env.nowSet }) :: mapDelete c.items k1 := by
    rw [hcache]
    simp only [hstore]
    rw [mapDelete_cons_eq, if_neg hk1]
  have hl2 : mapLookup c.items k2 = some v2 := mapLookup_of_mem c.items hwf k2 v2 hm2
  refine ⟨hcount, ?_, ?_, ?_, ?_⟩
  · rw [hitems']
    apply List.Perm.cons
    have h : (mapDelete c.items k1).Perm (mapDelete [(k1, v1), (k2, v2)] k1) :=
      hitems.filter _
    rw [mapDelete_cons_eq, if_pos rfl, mapDelete_cons_eq, if_neg (Ne.symm hk)] at h
    exact h
  · rw [hcache]; exact mapLookup_mapDelete_self _ _
  · rw [hcache]
    simp only []
    rw [mapLookup_mapDelete_of_ne _ (Ne.symm hk), hstore, mapLookup, if_neg hk2]
    exact hl2
  · rw [hcache]
    simp only []
    rw [mapLookup_mapDelete_of_ne _ hk1, hstore, mapLookup, if_pos rfl]

/-- Witness of C13 (amended): entries of 6 KB and 5 KB created one second
apart, budget 10 KB, the scan visits the new entry, then b, then a. -/
theorem C13_scenario_B_witness :
    evictCount (HandlerProxy scenarioBCache scenarioBEnv).trace = 1 ∧
    (HandlerProxy scenarioBCache scenarioBEnv).cache.items.Perm
      [("example.org", { Value := [7, 7, 7], Created := scenarioBEnv.nowSet }),
       ("b.example", { Value := List.replicate 5120 2, Created := 1700000001000000000 })] ∧
    mapLookup (HandlerProxy scenarioBCache scenarioBEnv).cache.items "a.example" = none ∧
    mapLookup (HandlerProxy scenarioBCache scenarioBEnv).cache.items "b.example"
      = some { Value := List.replicate 5120 2, Created := 1700000001000000000 } ∧
    mapLookup (HandlerProxy scenarioBCache scenarioBEnv).cache.items "example.org"
      = some { Value := [7, 7, 7], Created := scenarioBEnv.nowSet } :=
  C13_scenario_B scenarioBCache scenarioBEnv
    { Ip := "10.0.0.1:8080", Address := "example.org", CacheSize := 10 } [7, 7, 7]
    "a.example" "b.example"
    { Value := List.replicate 6144 1, Created := 1700000000000000000 }
    { Value := List.replicate 5120 2, Created := 1700000001000000000 }
    (List.Perm.refl _) (by decide) rfl (by decide) (by decide) rfl
    (List.Perm.cons _ (List.Perm.swap _ _ _)) (by decide) (by decide)
    (by rw [floor_div_1024]; decide)

/-- C14, counterexample: two entries created 100 microseconds apart within one
millisecond, visited older first: `delOldCache` removes the entry b although
the entry a was created strictly earlier. -/
theorem C14_counterexample :
    KeysNodup sameMilliCache.items ∧ 1 < sameMilliCache.items.length ∧
    List.Perm sameMilliCache.items sameMilliCache.items ∧
    ∃ e ∈ sameMilliCache.items,
      (delOldCache sameMilliCache sameMilliCache.items).1
        = { sameMilliCache with items := sameMilliCache.items.erase e } ∧
      (delOldCache sameMilliCache sameMilliCache.items).1.items.length + 1
        = sameMilliCache.items.length ∧
      ∃ e' ∈ sameMilliCache.items, e'.2.Created < e.2.Created :=
  ⟨by decide, by decide, List.Perm.refl _,
   ("b.example", { Value := [2], Created := 1700000000000200000 }), by decide, by decide,
   by decide,
   ("a.example", { Value := [1], Created := 1700000000000100000 }), by decide, by decide⟩

/-- C14, amended: EvictOldest selection under ties.  For every well-formed
cache holding `n > 1` entries and for every visiting order of the map,
`delOldCache` removes exactly one entry, leaving `n - 1`, and the creation
time of the removed entry, in whole milliseconds (`UnixMilli`), is less than or
equal to that of every entry in the cache; only the choice among the entries of
the minimal millisecond depends on the visiting order. -/
theorem C14_evicts_a_minimum (c : Cache) (order : List (String × Item))
    (hwf : KeysNodup c.items) (hperm : order.Perm c.items) (hlen : 1 < c.items.length) :
    ∃ e ∈ c.items,
      (∀ e' ∈ c.items, UnixMilli e.2.Created ≤ UnixMilli e'.2.Created) ∧
      (delOldCache c order).1 = { c with items := c.items.erase e } ∧
      (delOldCache c order).1.items.length + 1 = c.items.length ∧
      mapLookup (delOldCache c order).1.items e.1 = none ∧
      ∀ k, k ≠ e.1 → mapLookup (delOldCache c order).1.items k = mapLookup c.items k := by
  obtain ⟨x, hx, hmin, hdel⟩ := delOldCache_spec c order hperm hlen
  have herase : mapDelete c.items x.1 = c.items.erase x :=
    mapDelete_eq_erase c.items hwf x.1 x.2 hx
  refine ⟨x, hx, hmin, ?_, ?_, ?_, ?_⟩
  · rw [hdel, herase]
  · rw [hdel, herase]
    simp only []
    rw [List.length_erase_of_mem hx]
    omega
  · rw [hdel]; exact mapLookup_mapDelete_self _ _
  · intro k hk
    rw [hdel]; exact mapLookup_mapDelete_of_ne _ hk

/-- Witness of C14 (amended): the two entries of one millisecond, visited
newer first. -/
theorem C14_evicts_a_minimum_witness :
    ∃ e ∈ sameMilliCache.items,
      (∀ e' ∈ sameMilliCache.items, UnixMilli e.2.Created ≤ UnixMilli e'.2.Created) ∧
      (delOldCache sameMilliCache sameMilliCache.items.reverse).1
        = { sameMilliCache with items := sameMilliCache.items.erase e } ∧
      (delOldCache sameMilliCache sameMilliCache.items.reverse).1.items.length + 1
        = sameMilliCache.items.length ∧
      mapLookup (delOldCache sameMilliCache sameMilliCache.items.reverse).1.items e.1 = none ∧
      ∀ k, k ≠ e.1 →
        mapLookup (delOldCache sameMilliCache sameMilliCache.items.reverse).1.items k
          = mapLookup sameMilliCache.items k :=
  C14_evicts_a_minimum sameMilliCache sameMilliCache.items.reverse (by decide)
    (List.reverse_perm _) (by decide)

/-! ## Bookkeeping, locks and the double fetch -/

/-- C15: The cache primitives do no size bookkeeping.  `Set`, `Get`, `Delete`
and `delOldCache` each leave the size counter equal to its value before the
call, also when they remove an entry; a request changes the counter only on
the miss branch, with a body of at least 1024 bytes read in full. -/
theorem C15_primitives_keep_counter (c : Cache) (key : String) (value : List Byte)
    (now : Time) (order : List (String × Item)) (env : Env) :
    (c.Set key value now).cacheSize = c.cacheSize ∧
    (c.Get key now).1.cacheSize = c.cacheSize ∧
    (c.Delete key).1.cacheSize = c.cacheSize ∧
    (delOldCache c order).1.cacheSize = c.cacheSize ∧
    ((HandlerProxy c env).cache.cacheSize ≠ c.cacheSize →
      ∃ config body, env.configFile = .decoded config ∧
        config.Address ∉ c.items.map Prod.fst ∧ env.fetch = .ok body ∧
        1024 ≤ body.length) := by
  refine ⟨rfl, by rw [Get_fst], Delete_cacheSize c key, delOldCache_cacheSize c order, ?_⟩
  intro hne
  rcases HandlerProxy_cases c env with h | ⟨config, body, hcfg, hmiss, hfetch⟩
  · rw [h.1] at hne
    exact absurd rfl hne
  · refine ⟨config, body, hcfg, hmiss, hfetch, ?_⟩
    by_contra hlt
    apply hne
    rw [HandlerProxy_miss_cacheSize c env config body hcfg hmiss hfetch,
      Nat.div_eq_of_lt (not_le.1 hlt)]
    simp [wrapInt_cacheSize]

/-- Witness of C15: deleting a stored entry and evicting the oldest of three
entries leave the counter at 11. -/
theorem C15_primitives_keep_counter_witness :
    (threeEntryCache.Delete "a.example").1.cacheSize = 11 ∧
    (delOldCache threeEntryCache threeEntryCache.items).1.cacheSize = 11 ∧
    (delOldCache threeEntryCache threeEntryCache.items).1.items.length = 2 :=
  ⟨(C15_primitives_keep_counter threeEntryCache "a.example" [] 0 threeEntryCache.items
      overBudgetEnv).2.2.1,
   (C15_primitives_keep_counter threeEntryCache "a.example" [] 0 threeEntryCache.items
      overBudgetEnv).2.2.2.1,
   by decide⟩

/-- C16, code at the failing input: `Get` touches the map under the shared
lock and `Set` and `Delete` under the exclusive lock, but `delOldCache` reads
the map at main.go:99 and main.go:114 with no lock held, and the first request
on a fresh server under budget 0 reads and writes the size counter at
main.go:171-181 and scans the map at main.go:99-114 with no lock held. -/
theorem C16_unlocked_accesses (c : Cache) (key : String) (order : List (String × Item)) :
    (∀ a ∈ GetAccesses, a.held = Held.shared) ∧
    (∀ a ∈ SetAccesses, a.held = Held.exclusive) ∧
    (∀ a ∈ DeleteAccesses c key, a.held = Held.exclusive) ∧
    (delOldCacheAccesses c order).filter (fun a => decide (a.held = Held.unlocked))
      = [{ line := 99, field := .items, isWrite := false, held := .unlocked },
         { line := 114, field := .items, isWrite := false, held := .unlocked }] ∧
    HandlerProxyAccesses cache zeroBudgetEnv
      = [{ line := 68, field := .items, isWrite := false, held := .shared },
         { line := 171, field := .cacheSize, isWrite := false, held := .unlocked },
         { line := 175, field := .cacheSize, isWrite := true, held := .unlocked },
         { line := 57, field := .items, isWrite := true, held := .exclusive },
         { line := 179, field := .cacheSize, isWrite := false, held := .unlocked },
         { line := 181, field := .cacheSize, isWrite := false, held := .unlocked },
         { line := 99, field := .items, isWrite := false, held := .unlocked },
         { line := 114, field := .items, isWrite := false, held := .unlocked },
         { line := 68, field := .items, isWrite := false, held := .shared }] := by
  have hdel : ∀ a ∈ DeleteAccesses c key, a.held = Held.exclusive := by
    intro a ha
    unfold DeleteAccesses at ha
    split at ha <;> simp at ha <;> rcases ha with rfl | rfl <;> rfl
  refine ⟨by decide, by decide, hdel, ?_, by decide⟩
  unfold delOldCacheAccesses
  rw [List.filter_append]
  have h0 : (if c.items.length > 1 then DeleteAccesses c (scan order).key else []).filter
      (fun a => decide (a.held = Held.unlocked)) = [] := by
    rw [List.filter_eq_nil_iff]
    intro a ha
    split at ha
    · have hd : ∀ a ∈ DeleteAccesses c (scan order).key, a.held = Held.exclusive := by
        intro a ha
        unfold DeleteAccesses at ha
        split at ha <;> simp at ha <;> rcases ha with rfl | rfl <;> rfl
      simp [hd a ha]
    · simp at ha
  rw [h0]
  rfl

theorem missBranch_cacheSize (c : Cache) (config : Config) (body : List Byte) (env : Env) :
    (missBranch c config body env).cache.cacheSize
      = wrapInt (c.cacheSize + ((body.length / 1024 : Nat) : Int)) := by
  simp [missBranch, accountAndStore_cacheSize]

theorem checkBudget_items_subset (c : Cache) (config : Config) (newSize : Int)
    (order : List (String × Item)) :
    ∀ e ∈ (checkBudget c config newSize order).1.items, e ∈ c.items := by
  intro e he
  unfold checkBudget delOldCache Cache.Delete at he
  dsimp only at he
  split at he
  · split at he
    · split at he
      · exact he
      · exact (List.mem_filter.1 he).1
    · exact he
  · exact he

/-- After the miss branch every entry under the host key is the one just
stored. -/
theorem missBranch_entry (c : Cache) (config : Config) (body : List Byte) (env : Env) :
    ∀ e ∈ (missBranch c config body env).cache.items, e.1 = config.Address →
      e.2 = { Value := body, Created := env.nowSet } := by
  intro e he hk
  simp only [missBranch, Get_fst] at he
  have h1 := checkBudget_items_subset _ _ _ _ e he
  simp only [accountAndStore, Cache.Set, mapStore, mapDelete, List.mem_cons,
    List.mem_filter] at h1
  rcases h1 with h1 | h1
  · rw [h1]
  · simp [hk] at h1

/-- Both miss branches add their own contribution to the size counter (with the
wrap-around of `int`), and the host key holds at most the body stored last. -/
theorem raceMisses_spec (c : Cache) (config : Config) (body1 body2 : List Byte)
    (env1 env2 : Env) :
    (raceMisses c config body1 body2 env1 env2).2.cache.cacheSize
      = wrapInt (c.cacheSize + ((body1.length / 1024 : Nat) : Int)
          + ((body2.length / 1024 : Nat) : Int)) ∧
    ∀ e ∈ (raceMisses c config body1 body2 env1 env2).2.cache.items, e.1 = config.Address →
      e.2 = { Value := body2, Created := env2.nowSet } := by
  unfold raceMisses
  exact ⟨by simp only [missBranch_cacheSize, wrapInt_wrapInt_add],
    missBranch_entry _ config body2 env2⟩

/-- On a cache that stores at most the host key, the miss branch leaves exactly
the entry it stores: the guard of `delOldCache` keeps a single entry. -/
theorem missBranch_items_single (c : Cache) (config : Config) (body : List Byte) (env : Env)
    (h : ∀ e ∈ c.items, e.1 = config.Address) :
    (missBranch c config body env).cache.items
      = [(config.Address, { Value := body, Created := env.nowSet })] := by
  have hdel : mapDelete c.items config.Address = [] := by
    unfold mapDelete
    rw [List.filter_eq_nil_iff]
    intro e he
    simp [h e he]
  have hstore : (accountAndStore c config body env.nowSet).items
      = [(config.Address, { Value := body, Created := env.nowSet })] := by
    simp [accountAndStore, Cache.Set, mapStore, hdel]
  have hguard : ¬ (accountAndStore c config body env.nowSet).items.length > 1 := by
    rw [hstore]; simp
  simp only [missBranch, Get_fst]
  unfold checkBudget
  split
  · simp only [delOldCache, if_neg hguard]
    exact hstore
  · exact hstore

/-- C17, code at the failing input: two first-time requests for "example.org"
on the fresh cache both see a miss (lookups at 1 ms and 2 ms, stores at 5 ms and
7 ms), fetch 1024 and 2048 bytes and run their miss branches one after the
other.  In either order one entry is left under the key, holding the body
stored last, and the size counter is 3, the sum of both contributions 1 and 2,
not one of them. -/
theorem C17_double_count :
    (cache.Get scenarioAConfig.Address raceEnv1.nowGet1).2.2.2 = false ∧
    (cache.Get scenarioAConfig.Address raceEnv2.nowGet1).2.2.2 = false ∧
    (raceMisses cache scenarioAConfig (List.replicate 1024 1) (List.replicate 2048 2)
      raceEnv1 raceEnv2).1 = HandlerProxy cache raceEnv1 ∧
    (raceMisses cache scenarioAConfig (List.replicate 1024 1) (List.replicate 2048 2)
      raceEnv1 raceEnv2).2.cache.items
      = [("example.org", { Value := List.replicate 2048 2, Created := 7000000 })] ∧
    (raceMisses cache scenarioAConfig (List.replicate 1024 1) (List.replicate 2048 2)
      raceEnv1 raceEnv2).2.cache.cacheSize = 3 ∧
    (raceMisses cache scenarioAConfig (List.replicate 2048 2) (List.replicate 1024 1)
      raceEnv2 raceEnv1).2.cache.items
      = [("example.org", { Value := List.replicate 1024 1, Created := 5000000 })] ∧
    (raceMisses cache scenarioAConfig (List.replicate 2048 2) (List.replicate 1024 1)
      raceEnv2 raceEnv1).2.cache.cacheSize = 3 := by
  have hfresh : ∀ e ∈ cache.items, e.1 = scenarioAConfig.Address := by
    intro e he
    simp [cache, New] at he
  have hnext : ∀ (body : List Byte) (env : Env),
      ∀ e ∈ (missBranch cache scenarioAConfig body env).cache.items,
        e.1 = scenarioAConfig.Address := by
    intro body env e he
    rw [missBranch_items_single cache scenarioAConfig body env hfresh] at he
    rw [List.mem_singleton.1 he]
  refine ⟨by decide, by decide, ?_, ?_, ?_, ?_, ?_⟩
  · exact (HandlerProxy_eq_missBranch cache raceEnv1 scenarioAConfig (List.replicate 1024 1)
      rfl (by decide) rfl).symm
  · exact missBranch_items_single _ scenarioAConfig (List.replicate 2048 2) raceEnv2
      (hnext (List.replicate 1024 1) raceEnv1)
  · rw [(raceMisses_spec _ _ _ _ _ _).1]
    simp only [List.length_replicate]
    decide
  · exact missBranch_items_single _ scenarioAConfig (List.replicate 1024 1) raceEnv1
      (hnext (List.replicate 2048 2) raceEnv2)
  · rw [(raceMisses_spec _ _ _ _ _ _).1]
    simp only [List.length_replicate]
    decide

/-! ## Sequences of requests -/

theorem run_append (s : Sys) (a b : List Step) : run s (a ++ b) = run (run s a) b := by
  simp [run, List.foldl_append]

theorem run_cons (s : Sys) (st : Step) (rest : List Step) :
    run s (st :: rest) = run (if s.running then s.step st else s) rest := rfl

/-- A request for the host `host` on a cache that stores at most that key
leaves a cache that stores at most that key. -/
theorem HandlerProxy_single_host (c : Cache) (env : Env) (host : String)
    (hkeys : ∀ e ∈ c.items, e.1 = host) (hlen : c.items.length ≤ 1)
    (henv : ∃ config, env.configFile = .decoded config ∧ config.Address = host) :
    (∀ e ∈ (HandlerProxy c env).cache.items, e.1 = host) ∧
    (HandlerProxy c env).cache.items.length ≤ 1 := by
  rcases HandlerProxy_cases c env with h | ⟨config, body, hcfg, hmiss, hfetch⟩
  · rw [h.1]; exact ⟨hkeys, hlen⟩
  · obtain ⟨config', hcfg', haddr⟩ := henv
    have hcc : config' = config := by
      rw [hcfg'] at hcfg; exact ConfigFile.decoded.inj hcfg
    subst hcc
    rw [HandlerProxy_eq_missBranch c env config' body hcfg hmiss hfetch,
      missBranch_items_single c config' body env (haddr ▸ hkeys)]
    constructor
    · intro e he
      rw [List.mem_singleton.1 he]; exact haddr
    · simp

theorem run_requests_single_host (host : String) (envs : List Env) (s : Sys)
    (h : SameHost host envs)
    (hkeys : ∀ e ∈ s.cache.items, e.1 = host) (hlen : s.cache.items.length ≤ 1) :
    (∀ e ∈ (run s (envs.map Step.request)).cache.items, e.1 = host) ∧
    (run s (envs.map Step.request)).cache.items.length ≤ 1 := by
  induction envs generalizing s with
  | nil => exact ⟨hkeys, hlen⟩
  | cons env envs ih =>
    have htail : SameHost host envs := fun e he => h e (List.mem_cons_of_mem _ he)
    rw [List.map_cons, run_cons]
    by_cases hr : s.running
    · rw [if_pos hr]
      have h1 := HandlerProxy_single_host s.cache env host hkeys hlen
        (h env (List.mem_cons_self _ _))
      exact ih _ htail h1.1 h1.2
    · rw [if_neg hr]
      exact ih s htail hkeys hlen

/-- Once the host key is stored, further requests for that host change nothing:
neither the cache nor the trace. -/
theorem run_requests_hit (host : String) (more : List Env) (s : Sys)
    (h : SameHost host more) (hstored : host ∈ s.cache.items.map Prod.fst) :
    run s (more.map Step.request) = s := by
  induction more with
  | nil => rfl
  | cons env more ih =>
    have htail : SameHost host more := fun e he => h e (List.mem_cons_of_mem _ he)
    rw [List.map_cons, run_cons]
    by_cases hr : s.running
    · rw [if_pos hr]
      obtain ⟨config, hcfg, haddr⟩ := h env (List.mem_cons_self _ _)
      obtain ⟨item, hi⟩ := exists_mapLookup_of_mem s.cache.items host hstored
      have hstep : s.step (Step.request env) = s := by
        simp only [Sys.step]
        rw [HandlerProxy_hit s.cache env config item hcfg (haddr ▸ hi)]
        cases s with
        | mk c t r =>
          simp only [List.append_nil] at *
          simp [hr]
      rw [hstep]
      exact ih htail
    · rw [if_neg hr]
      exact ih htail

/-- C19, code at the failing input: two requests with the same configured host
on a fresh server.  `client.Do` of the first fails; its error is discarded at
main.go:155, so the `log.Fatal` check of main.go:157-159 does not fire and the
handler panics on the nil response at main.go:161 after the fetch: nothing is
stored and the server keeps running.  The second request is a miss again and
fetches as well, so not only the first request fetches. -/
theorem C19_failed_fetch_refetches :
    SameHost "example.org" [upstreamDownEnv, retryEnv] ∧
    (run start [Step.request upstreamDownEnv]).running = true ∧
    (run start [Step.request upstreamDownEnv]).cache = cache ∧
    (HandlerProxy cache upstreamDownEnv).exit = Exit.panicked ∧
    (HandlerProxy cache upstreamDownEnv).trace
      = [fetchEvent scenarioAConfig FetchResult.noResponse] ∧
    (HandlerProxy (run start [Step.request upstreamDownEnv]).cache retryEnv).trace
      = [fetchEvent scenarioAConfig (FetchResult.ok [7, 7, 7]), Event.print 0 0] ∧
    (run start [Step.request upstreamDownEnv, Step.request retryEnv]).trace
      = [fetchEvent scenarioAConfig FetchResult.noResponse,
         fetchEvent scenarioAConfig (FetchResult.ok [7, 7, 7]), Event.print 0 0] := by
  refine ⟨?_, by decide, by decide, by decide, by decide, by decide, by decide⟩
  intro env he
  simp only [List.mem_cons, List.mem_singleton, List.not_mem_nil, or_false] at he
  rcases he with rfl | rfl
  · exact ⟨scenarioAConfig, rfl, rfl⟩
  · exact ⟨scenarioAConfig, rfl, rfl⟩

/-- The single-host invariant: for every sequence of requests handled with the
same configured host the cache reached holds at most one entry, stored under
that host, and `delOldCache` removes nothing; a request that reads a body in
full leaves the host key stored, and from a state in which the host key is
stored every later request is a hit that changes neither the cache nor the
trace. -/
theorem single_host_invariant (host : String) (envs : List Env) (h : SameHost host envs) :
    (run start (envs.map Step.request)).cache.items.length ≤ 1 ∧
    (∀ e ∈ (run start (envs.map Step.request)).cache.items, e.1 = host) ∧
    (∀ order, (delOldCache (run start (envs.map Step.request)).cache order).1
      = (run start (envs.map Step.request)).cache) ∧
    (∀ env config body, env.configFile = .decoded config → config.Address = host →
      env.fetch = .ok body →
      host ∈ (HandlerProxy (run start (envs.map Step.request)).cache env).cache.items.map
        Prod.fst) ∧
    (∀ more, SameHost host more →
      host ∈ (run start (envs.map Step.request)).cache.items.map Prod.fst →
      run (run start (envs.map Step.request)) (more.map Step.request)
        = run start (envs.map Step.request)) := by
  obtain ⟨hkeys, hlen⟩ := run_requests_single_host host envs start h
    (by intro e he; simp [start, cache, New] at he) (by simp [start, cache, New])
  generalize run start (envs.map Step.request) = s at hkeys hlen
  refine ⟨hlen, hkeys, ?_, ?_, ?_⟩
  · intro order
    simp [delOldCache, not_lt.2 hlen]
  · intro env config body hcfg haddr hfetch
    by_cases hst : config.Address ∈ s.cache.items.map Prod.fst
    · obtain ⟨item, hi⟩ := exists_mapLookup_of_mem s.cache.items _ hst
      rw [HandlerProxy_hit s.cache env config item hcfg hi]
      exact haddr ▸ hst
    · rw [HandlerProxy_eq_missBranch s.cache env config body hcfg hst hfetch,
        missBranch_items_single s.cache config body env (haddr ▸ hkeys)]
      simp [haddr]
  · intro more hmore hstored
    exact run_requests_hit host more s hmore hstored

/-! ## The size counter along a run -/

theorem run_nil (s : Sys) : run s [] = s := rfl

theorem missBranch_fetchedKB (c : Cache) (config : Config) (body : List Byte) (env : Env) :
    fetchedKB (missBranch c config body env).trace = ((body.length / 1024 : Nat) : Int) := by
  have h := checkBudget_fetchedKB (accountAndStore c config body env.nowSet) config
    (Int.tdiv (binarySize body) 1024) env.order
  simp only [fetchedKB] at h
  simp [missBranch, fetchedKB, fetchEvent, Event.fetchedKB, h]

/-- A request that misses on a cache with no entries and reads its body in
full: the process keeps running, the cache holds the fetched entry alone, the
counter is the wrapped sum and the fetched total grows by the KB of the body. -/
theorem step_request_first (s : Sys) (env : Env) (config : Config) (body : List Byte)
    (hcfg : env.configFile = .decoded config) (hfetch : env.fetch = .ok body)
    (hitems : s.cache.items = []) :
    (s.step (Step.request env)).running = true ∧
    (s.step (Step.request env)).cache.items
      = [(config.Address, { Value := body, Created := env.nowSet })] ∧
    (s.step (Step.request env)).cache.cacheSize
      = wrapInt (s.cache.cacheSize + ((body.length / 1024 : Nat) : Int)) ∧
    fetchedKB (s.step (Step.request env)).trace
      = fetchedKB s.trace + ((body.length / 1024 : Nat) : Int) := by
  have hmiss : config.Address ∉ s.cache.items.map Prod.fst := by simp [hitems]
  have hkeys : ∀ e ∈ s.cache.items, e.1 = config.Address := by simp [hitems]
  simp only [Sys.step]
  rw [HandlerProxy_eq_missBranch s.cache env config body hcfg hmiss hfetch]
  refine ⟨?_, missBranch_items_single s.cache config body env hkeys,
    missBranch_cacheSize s.cache config body env, ?_⟩
  · simp [missBranch]
  · rw [fetchedKB_append, missBranch_fetchedKB]

theorem step_delete_single (s : Sys) (key : String) (item : Item)
    (hitems : s.cache.items = [(key, item)]) :
    (s.step (Step.delete key)).running = s.running ∧
    (s.step (Step.delete key)).cache.items = [] ∧
    (s.step (Step.delete key)).cache.cacheSize = s.cache.cacheSize ∧
    (s.step (Step.delete key)).trace = s.trace := by
  simp [Sys.step, Cache.Delete, hitems, mapLookup, mapDelete]

/-- The run of `n` rounds of a request that reads its body in full followed by
a `Delete` of its key, from a running process with an empty cache. -/
theorem run_rounds (env : Env) (config : Config) (body : List Byte)
    (hcfg : env.configFile = .decoded config) (hfetch : env.fetch = .ok body)
    (n : Nat) (s : Sys) (hr : s.running = true) (hitems : s.cache.items = []) :
    (run s (rounds env config.Address n)).running = true ∧
    (run s (rounds env config.Address n)).cache.items = [] ∧
    (run s (rounds env config.Address n)).cache.cacheSize
      = wrapInt (s.cache.cacheSize + (n : Int) * ((body.length / 1024 : Nat) : Int)) ∧
    fetchedKB (run s (rounds env config.Address n)).trace
      = fetchedKB s.trace + (n : Int) * ((body.length / 1024 : Nat) : Int) := by
  induction n generalizing s with
  | zero =>
    simp only [rounds, run_nil]
    refine ⟨hr, hitems, ?_, ?_⟩
    · simp [wrapInt_cacheSize]
    · simp
  | succ n ih =>
    obtain ⟨h1r, h1i, h1c, h1f⟩ := step_request_first s env config body hcfg hfetch hitems
    obtain ⟨h2r, h2i, h2c, h2f⟩ := step_delete_single (s.step (Step.request env))
      config.Address _ h1i
    have h3 := ih ((s.step (Step.request env)).step (Step.delete config.Address))
      (h2r.trans h1r) h2i
    simp only [rounds]
    rw [run_cons, if_pos hr, run_cons, if_pos h1r]
    obtain ⟨h3r, h3i, h3c, h3f⟩ := h3
    refine ⟨h3r, h3i, ?_, ?_⟩
    · rw [h3c, h2c, h1c, wrapInt_wrapInt_add]
      congr 1
      push_cast
      ring
    · rw [h3f, h2f, h1f]
      push_cast
      ring

theorem fetchedKB_step_mono (s : Sys) (st : Step) :
    fetchedKB s.trace ≤ fetchedKB (s.step st).trace := by
  cases st with
  | set key value now => exact le_refl _
  | get key now => exact le_refl _
  | delete key => exact le_refl _
  | evict order => exact le_refl _
  | request env =>
    simp only [Sys.step, fetchedKB_append]
    exact le_add_of_nonneg_right (fetchedKB_nonneg _)

theorem fetchedKB_run_mono (steps : List Step) (s : Sys) :
    fetchedKB s.trace ≤ fetchedKB (run s steps).trace := by
  induction steps generalizing s with
  | nil => exact le_refl _
  | cons st steps ih =>
    rw [run_cons]
    by_cases hr : s.running
    · rw [if_pos hr]
      exact le_trans (fetchedKB_step_mono s st) (ih _)
    · rw [if_neg hr]
      exact ih s

theorem run_snoc (s : Sys) (steps : List Step) (st : Step)
    (hr : (run s steps).running = true) :
    run s (steps ++ [st]) = (run s steps).step st := by
  rw [run_append, run_cons, if_pos hr, run_nil]

/-- While the fetched total is in the range of `int` the counter equals it. -/
theorem run_cacheSize_of_le (steps : List Step)
    (h : fetchedKB (run start steps).trace ≤ maxInt) :
    (run start steps).cache.cacheSize = fetchedKB (run start steps).trace := by
  rw [run_cacheSize steps start rfl]
  apply wrapInt_of_isGoInt
  have h0 := fetchedKB_nonneg (run start steps).trace
  unfold IsGoInt minInt
  unfold maxInt at h ⊢
  omega

theorem snoc_request_cacheSize (s : Sys) (steps : List Step) (env : Env)
    (hr : (run s steps).running = true) :
    (run s (steps ++ [Step.request env])).cache.cacheSize
      = (HandlerProxy (run s steps).cache env).cache.cacheSize := by
  rw [run_snoc s steps _ hr]
  rfl

/-- The state after 1024 rounds of `hugeEnv`: running, no entry, counter
`1024 * (2^53 - 1)`. -/
theorem run_hugeRounds :
    (run start (rounds hugeEnv "example.org" 1024)).running = true ∧
    (run start (rounds hugeEnv "example.org" 1024)).cache.items = [] ∧
    (run start (rounds hugeEnv "example.org" 1024)).cache.cacheSize = 9223372036854774784 := by
  obtain ⟨hr, hi, hc, _⟩ := run_rounds hugeEnv scenarioAConfig
    (List.replicate 9223372036854775807 0) rfl rfl 1024 start rfl rfl
  have haddr : scenarioAConfig.Address = "example.org" := rfl
  rw [haddr] at hr hi hc
  rw [List.length_replicate] at hc
  exact ⟨hr, hi, hc.trans (by decide)⟩

/-- A miss of `hugeEnv` on an empty cache with counter `1024 * (2^53 - 1)`: the
counter wraps around below zero and `delOldCache` is not invoked. -/
theorem hugeEnv_overflow (s : Sys) (hi : s.cache.items = [])
    (hc : s.cache.cacheSize = 9223372036854774784) :
    scenarioAConfig.Address ∉ s.cache.items.map Prod.fst ∧
    (HandlerProxy s.cache hugeEnv).cache.cacheSize = -9214364837600035841 ∧
    evictCount (HandlerProxy s.cache hugeEnv).trace = 0 := by
  have hmiss : scenarioAConfig.Address ∉ s.cache.items.map Prod.fst := by
    rw [hi]; simp
  refine ⟨hmiss, ?_, ?_⟩
  · rw [HandlerProxy_miss_cacheSize _ hugeEnv scenarioAConfig
      (List.replicate 9223372036854775807 0) rfl hmiss rfl, hc, List.length_replicate]
    decide
  · rw [HandlerProxy_miss _ hugeEnv scenarioAConfig
      (List.replicate 9223372036854775807 0) rfl hmiss rfl]
    simp only [evictCount_fetch_cons, evictCount_checkBudget, accountAndStore_cacheSize,
      hc, List.length_replicate]
    decide

theorem snoc_request_fetchedKB (s : Sys) (steps : List Step) (env : Env)
    (hr : (run s steps).running = true) :
    fetchedKB (run s (steps ++ [Step.request env])).trace
      = fetchedKB (run s steps).trace + fetchedKB (HandlerProxy (run s steps).cache env).trace := by
  rw [run_snoc s steps _ hr]
  simp only [Sys.step, fetchedKB_append]

/-- The fetched total after 1024 rounds of `hugeEnv` and after one more miss. -/
theorem hugeRounds_fetchedKB :
    fetchedKB (run start (rounds hugeEnv "example.org" 1024)).trace = 9223372036854774784 ∧
    fetchedKB (run start (rounds hugeEnv "example.org" 1024 ++ [Step.request hugeEnv])).trace
      = 9232379236109515775 := by
  obtain ⟨_, _, _, hf⟩ := run_rounds hugeEnv scenarioAConfig
    (List.replicate 9223372036854775807 0) rfl rfl 1024 start rfl rfl
  have haddr : scenarioAConfig.Address = "example.org" := rfl
  rw [haddr] at hf
  rw [List.length_replicate] at hf
  have h1 : fetchedKB (run start (rounds hugeEnv "example.org" 1024)).trace
      = 9223372036854774784 := hf.trans (by decide)
  have hmiss := (hugeEnv_overflow _ run_hugeRounds.2.1 run_hugeRounds.2.2).1
  have h2 : fetchedKB (HandlerProxy (run start (rounds hugeEnv "example.org" 1024)).cache
      hugeEnv).trace = 9007199254740991 := by
    rw [HandlerProxy_eq_missBranch _ hugeEnv scenarioAConfig
      (List.replicate 9223372036854775807 0) rfl hmiss rfl, missBranch_fetchedKB,
      List.length_replicate]
    decide
  refine ⟨h1, ?_⟩
  rw [snoc_request_fetchedKB start _ hugeEnv run_hugeRounds.1, h1, h2]
  decide

set_option maxRecDepth 100000 in
/-- C1, counterexample, three inputs on the fresh cache.  One miss with a
500-byte body: the counter is 0, the sum of `ceil(len/1024)` over the stored
entries is 1.  One miss with a 2048-byte body followed by `Delete` of its key:
the counter is 2 and no entry is stored.  One `Set` of a 2048-byte value: the
counter is 0 and the stored entry sums to 2, rounded up or down.  And 1025
misses with bodies of `2^63 - 1` bytes, a `Delete` after each of the first
1024: the bodies fetched sum to 9232379236109515775 KB, past the greatest `int`,
and the counter is -9214364837600035841. -/
theorem C1_counterexample :
    ((run start [Step.request scenarioAEnv]).cache.cacheSize = 0 ∧
      storedCeilKB (run start [Step.request scenarioAEnv]).cache.items = 1) ∧
    ((run start [Step.request kb2Env, Step.delete "example.org"]).cache.cacheSize = 2 ∧
      (run start [Step.request kb2Env, Step.delete "example.org"]).cache.items = [] ∧
      storedCeilKB (run start [Step.request kb2Env, Step.delete "example.org"]).cache.items
        = 0) ∧
    ((run start [Step.set "example.org" (List.replicate 2048 0) 2000000]).cache.cacheSize = 0 ∧
      storedCeilKB
        (run start [Step.set "example.org" (List.replicate 2048 0) 2000000]).cache.items = 2 ∧
      storedFloorKB
        (run start [Step.set "example.org" (List.replicate 2048 0) 2000000]).cache.items
          = 2) ∧
    ((run start (rounds hugeEnv "example.org" 1024 ++ [Step.request hugeEnv])).cache.cacheSize
        = -9214364837600035841 ∧
      fetchedKB (run start (rounds hugeEnv "example.org" 1024 ++ [Step.request hugeEnv])).trace
        = 9232379236109515775) := by
  obtain ⟨_, hi, hc, _⟩ := run_rounds kb2Env kb2Config (List.replicate 2048 0) rfl rfl 1
    start rfl rfl
  have hrun : rounds kb2Env kb2Config.Address 1
      = [Step.request kb2Env, Step.delete "example.org"] := rfl
  rw [hrun] at hi hc
  rw [List.length_replicate] at hc
  have hset : (run start [Step.set "example.org" (List.replicate 2048 0) 2000000]).cache.items
      = [("example.org", { Value := List.replicate 2048 0, Created := 2000000 })] := rfl
  have hover : (run start
      (rounds hugeEnv "example.org" 1024 ++ [Step.request hugeEnv])).cache.cacheSize
      = -9214364837600035841 :=
    (snoc_request_cacheSize start (rounds hugeEnv "example.org" 1024) hugeEnv
      run_hugeRounds.1).trans (hugeEnv_overflow _ run_hugeRounds.2.1 run_hugeRounds.2.2).2.1
  refine ⟨by decide, ⟨hc.trans (by decide), hi, ?_⟩, ⟨rfl, ?_, ?_⟩,
    ⟨hover, hugeRounds_fetchedKB.2⟩⟩
  · rw [hi]; rfl
  · rw [hset]
    simp only [storedCeilKB, ceilKB, List.map_cons, List.map_nil, List.length_replicate]
    decide
  · rw [hset]
    simp only [storedFloorKB, List.map_cons, List.map_nil, List.length_replicate]
    decide

/-- C1, amended: in every state reachable from the fresh cache by any sequence
of Set, Get, Delete, EvictOldest and request steps, the size counter equals the
sum of `floor(len(body)/1024)` over all bodies fetched so far on the miss path,
wrapped into the range of `int`, and that sum itself as long as it does not
exceed the greatest `int`, `2^63 - 1`; it does not follow the entries currently
stored. -/
theorem C1_cacheSize_eq_fetchedKB (steps : List Step) :
    (run start steps).cache.cacheSize = wrapInt (fetchedKB (run start steps).trace) ∧
    (fetchedKB (run start steps).trace ≤ maxInt →
      (run start steps).cache.cacheSize = fetchedKB (run start steps).trace) := by
  have h := run_cacheSize steps start rfl
  refine ⟨h, fun hle => ?_⟩
  rw [h]
  apply wrapInt_of_isGoInt
  have h0 := fetchedKB_nonneg (run start steps).trace
  unfold IsGoInt minInt
  unfold maxInt at hle ⊢
  omega

/-- Witness of C1 (amended): after a miss with a 2048-byte body and the
`Delete` of its key the fetched total is 2 and so is the counter. -/
theorem C1_cacheSize_eq_fetchedKB_witness :
    fetchedKB (run start [Step.request kb2Env, Step.delete "example.org"]).trace = 2 ∧
    (run start [Step.request kb2Env, Step.delete "example.org"]).cache.cacheSize
      = fetchedKB (run start [Step.request kb2Env, Step.delete "example.org"]).trace := by
  obtain ⟨_, _, _, hf⟩ := run_rounds kb2Env kb2Config (List.replicate 2048 0) rfl rfl 1
    start rfl rfl
  have hrun : rounds kb2Env kb2Config.Address 1
      = [Step.request kb2Env, Step.delete "example.org"] := rfl
  rw [hrun, List.length_replicate] at hf
  have hf2 : fetchedKB (run start [Step.request kb2Env, Step.delete "example.org"]).trace = 2 :=
    hf.trans (by decide)
  exact ⟨hf2, (C1_cacheSize_eq_fetchedKB [Step.request kb2Env, Step.delete "example.org"]).2
    (by rw [hf2]; decide)⟩

/-- C20, counterexample: 1024 rounds of a miss that fetches a body of
`2^63 - 1` bytes, each followed by `Delete` of its key, bring the counter of the
fresh cache to 9223372036854774784, above the budget of 10.  The next miss of
the same kind wraps the counter around to -9214364837600035841: it decreased,
it is negative, and that miss does not invoke `delOldCache`. -/
theorem C20_counterexample :
    (run start (rounds hugeEnv "example.org" 1024)).cache.cacheSize = 9223372036854774784 ∧
    (run start (rounds hugeEnv "example.org" 1024 ++ [Step.request hugeEnv])).cache.cacheSize
      = -9214364837600035841 ∧
    scenarioAConfig.CacheSize = 10 ∧
    hugeEnv.configFile = .decoded scenarioAConfig ∧
    scenarioAConfig.Address ∉
      (run start (rounds hugeEnv "example.org" 1024)).cache.items.map Prod.fst ∧
    evictCount (HandlerProxy (run start (rounds hugeEnv "example.org" 1024)).cache
      hugeEnv).trace = 0 :=
  ⟨run_hugeRounds.2.2,
   (snoc_request_cacheSize start (rounds hugeEnv "example.org" 1024) hugeEnv
      run_hugeRounds.1).trans (hugeEnv_overflow _ run_hugeRounds.2.1 run_hugeRounds.2.2).2.1,
   rfl, rfl,
   (hugeEnv_overflow _ run_hugeRounds.2.1 run_hugeRounds.2.2).1,
   (hugeEnv_overflow _ run_hugeRounds.2.1 run_hugeRounds.2.2).2.2⟩

/-- C20, amended: The size counter never decreases while the fetched total is
in range.  Along every sequence of Set, Get, Delete, EvictOldest and request
steps from the fresh cache during which the sum of `floor(len(body)/1024)` over
the bodies fetched does not exceed the greatest `int`, `2^63 - 1`, the counter
is non-negative and it is less than or equal to its value after any further
steps.  Hence, in that range, once the counter has met or exceeded a budget,
every later request that takes the miss branch under that budget with a body
read in full invokes `delOldCache` (exactly once), whatever steps, removals
included, lie in between. -/
theorem C20_counter_never_decreases (steps more : List Step)
    (hrange : fetchedKB (run start (steps ++ more)).trace ≤ maxInt) :
    0 ≤ (run start steps).cache.cacheSize ∧
    (run start steps).cache.cacheSize ≤ (run start (steps ++ more)).cache.cacheSize ∧
    (∀ env config body, env.configFile = .decoded config →
      config.CacheSize ≤ (run start steps).cache.cacheSize →
      config.Address ∉ (run start (steps ++ more)).cache.items.map Prod.fst →
      env.fetch = .ok body →
      fetchedKB (run start (steps ++ more)).trace + ⌊(body.length : ℚ) / 1024⌋ ≤ maxInt →
      evictCount (HandlerProxy (run start (steps ++ more)).cache env).trace = 1) := by
  have hmono : fetchedKB (run start steps).trace
      ≤ fetchedKB (run start (steps ++ more)).trace := by
    rw [run_append]
    exact fetchedKB_run_mono more _
  have h1 := run_cacheSize_of_le steps (le_trans hmono hrange)
  have h2 := run_cacheSize_of_le (steps ++ more) hrange
  refine ⟨h1 ▸ fetchedKB_nonneg _, by rw [h1, h2]; exact hmono, ?_⟩
  intro env config body hcfg hbudget hmiss hfetch hsum
  rw [floor_div_1024] at hsum
  rw [HandlerProxy_miss _ env config body hcfg hmiss hfetch]
  simp only [evictCount_fetch_cons, evictCount_checkBudget, accountAndStore_cacheSize]
  rw [if_pos]
  rw [h2, wrapInt_add_of_le ?_ (Int.natCast_nonneg _) hsum]
  · rw [h1] at hbudget
    exact le_trans (le_trans hbudget hmono) (le_add_of_nonneg_right (Int.natCast_nonneg _))
  · rw [← h2]
    exact (run start (steps ++ more)).cache.cacheSizeInt

/-- Witness of C20 (amended): the first miss fetches 2048 bytes and brings the
counter to 2, the budget; the entry is then deleted, the counter stays at 2, and
the next miss under that budget invokes `delOldCache` again. -/
theorem C20_counter_never_decreases_witness :
    fetchedKB (run start ([Step.request kb2Env] ++ [Step.delete "example.org"])).trace = 2 ∧
    (run start [Step.request kb2Env]).cache.cacheSize = 2 ∧
    (run start ([Step.request kb2Env] ++ [Step.delete "example.org"])).cache.cacheSize = 2 ∧
    kb2Config.CacheSize = 2 ∧
    evictCount (HandlerProxy
      (run start ([Step.request kb2Env] ++ [Step.delete "example.org"])).cache
      kb2Env).trace = 1 := by
  obtain ⟨_, hi, hc, hf⟩ := run_rounds kb2Env kb2Config (List.replicate 2048 0) rfl rfl 1
    start rfl rfl
  have hrun : rounds kb2Env kb2Config.Address 1
      = [Step.request kb2Env] ++ [Step.delete "example.org"] := rfl
  rw [hrun] at hi hc hf
  rw [List.length_replicate] at hc hf
  have hf2 : fetchedKB
      (run start ([Step.request kb2Env] ++ [Step.delete "example.org"])).trace = 2 :=
    hf.trans (by decide)
  have hc2 : (run start ([Step.request kb2Env] ++ [Step.delete "example.org"])).cache.cacheSize
      = 2 := hc.trans (by decide)
  have hfirst : (run start [Step.request kb2Env]).cache.cacheSize = 2 := by
    have h := (step_request_first start kb2Env kb2Config (List.replicate 2048 0) rfl rfl
      rfl).2.2.1
    rw [List.length_replicate] at h
    exact h.trans (by decide)
  have hrange : fetchedKB
      (run start ([Step.request kb2Env] ++ [Step.delete "example.org"])).trace ≤ maxInt := by
    rw [hf2]; decide
  exact ⟨hf2, hfirst, hc2, rfl,
    (C20_counter_never_decreases [Step.request kb2Env] [Step.delete "example.org"] hrange).2.2
      kb2Env kb2Config (List.replicate 2048 0) rfl (by rw [hfirst]; decide)
      (by rw [hi]; simp) rfl
      (by rw [hf2, floor_div_1024, List.length_replicate]; decide)⟩

end Proxy
